import Mathlib

/-!
Verification development for the CUDA flocking simulation in `src/kernel.cu`.

The device code is shallowly embedded: `float` arithmetic is modelled exactly
over `ℝ` (the spec's testable properties are stated "over exact arithmetic"),
device buffers become total functions together with an explicit environment
that records the (otherwise unspecified) contents of out-of-bounds and
never-initialized memory, and each kernel becomes a Lean function on that
state.  `glm` vector operations are componentwise; a C cast from `float` to
`int` truncates toward zero and is modelled by `floatToInt`.
-/

/-! ## Simulation constants (kernel.cu lines 44-55) -/

noncomputable def rule1Distance : ℝ := 5
noncomputable def rule2Distance : ℝ := 3
noncomputable def rule3Distance : ℝ := 5

noncomputable def rule1Scale : ℝ := 1 / 100
noncomputable def rule2Scale : ℝ := 1 / 10
noncomputable def rule3Scale : ℝ := 1 / 10

noncomputable def maxSpeed : ℝ := 1

noncomputable def scene_scale : ℝ := 100

/-! ## `glm::vec3` -/

@[ext]
structure Vec3 where
  x : ℝ
  y : ℝ
  z : ℝ

instance : Zero Vec3 := ⟨⟨0, 0, 0⟩⟩

instance : Add Vec3 := ⟨fun a b => ⟨a.x + b.x, a.y + b.y, a.z + b.z⟩⟩

instance : Sub Vec3 := ⟨fun a b => ⟨a.x - b.x, a.y - b.y, a.z - b.z⟩⟩

instance : Neg Vec3 := ⟨fun a => ⟨-a.x, -a.y, -a.z⟩⟩

instance : SMul ℝ Vec3 := ⟨fun c a => ⟨c * a.x, c * a.y, c * a.z⟩⟩

theorem Vec3.add_def (a b : Vec3) : a + b = ⟨a.x + b.x, a.y + b.y, a.z + b.z⟩ := rfl

theorem Vec3.sub_def (a b : Vec3) : a - b = ⟨a.x - b.x, a.y - b.y, a.z - b.z⟩ := rfl

theorem Vec3.smul_def (c : ℝ) (a : Vec3) : c • a = ⟨c * a.x, c * a.y, c * a.z⟩ := rfl

theorem Vec3.zero_def : (0 : Vec3) = ⟨0, 0, 0⟩ := rfl

/-- `glm::length`. -/
noncomputable def vlen (v : Vec3) : ℝ := Real.sqrt (v.x ^ 2 + v.y ^ 2 + v.z ^ 2)

/-- `glm::distance(a, b) = length(a - b)`. -/
noncomputable def dist3 (a b : Vec3) : ℝ := vlen (a - b)

/-- A C cast from `float` to `int` truncates toward zero
(`glm::ivec3(v)` applies it componentwise). -/
noncomputable def floatToInt (t : ℝ) : ℤ := if 0 ≤ t then ⌊t⌋ else ⌈t⌉

/-! ## Grid parameters, derived in `Boids::initSimulation` (lines 161-171).
`gridMinimum` is a zero-initialized global that is then decremented by
`halfGridWidth` on each component. -/

noncomputable def gridCellWidth : ℝ := 2 * max (max rule1Distance rule2Distance) rule3Distance

noncomputable def halfSideCount : ℤ := floatToInt (scene_scale / gridCellWidth) + 1

noncomputable def gridSideCount : ℤ := 2 * halfSideCount

noncomputable def gridCellCount : ℤ := gridSideCount * gridSideCount * gridSideCount

noncomputable def gridInverseCellWidth : ℝ := 1 / gridCellWidth

noncomputable def halfGridWidth : ℝ := gridCellWidth * (halfSideCount : ℝ)

noncomputable def gridMinimum : Vec3 := ⟨0 - halfGridWidth, 0 - halfGridWidth, 0 - halfGridWidth⟩

theorem halfSideCount_eq : halfSideCount = 11 := by
  have h : scene_scale / gridCellWidth = ((10 : ℤ) : ℝ) := by
    unfold scene_scale gridCellWidth rule1Distance rule2Distance rule3Distance
    norm_num
  unfold halfSideCount floatToInt
  rw [h, if_pos (by norm_num), Int.floor_intCast]
  norm_num

theorem gridSideCount_eq : gridSideCount = 22 := by
  unfold gridSideCount; rw [halfSideCount_eq]; norm_num

theorem gridCellCount_eq : gridCellCount = 10648 := by
  unfold gridCellCount; rw [gridSideCount_eq]; norm_num

theorem halfGridWidth_eq : halfGridWidth = 110 := by
  unfold halfGridWidth gridCellWidth rule1Distance rule2Distance rule3Distance
  rw [halfSideCount_eq]
  norm_num

theorem gridMinimum_eq : gridMinimum = ⟨-110, -110, -110⟩ := by
  unfold gridMinimum; rw [halfGridWidth_eq]; norm_num

theorem gridInverseCellWidth_eq : gridInverseCellWidth = 1 / 10 := by
  unfold gridInverseCellWidth gridCellWidth rule1Distance rule2Distance rule3Distance
  norm_num

/-! ## Integrator: `kernUpdatePos` (lines 322-341).
The position advances by `vel * dt`, then each coordinate is independently
wrapped: first every coordinate below `-scene_scale` is set to `scene_scale`,
then every coordinate above `scene_scale` is set to `-scene_scale`. -/

open Classical in
noncomputable def wrapCoord (t : ℝ) : ℝ :=
  let a := if t < -scene_scale then scene_scale else t
  if a > scene_scale then -scene_scale else a

noncomputable def updatePosPoint (dt : ℝ) (p v : Vec3) : Vec3 :=
  let q := p + dt • v
  ⟨wrapCoord q.x, wrapCoord q.y, wrapCoord q.z⟩

/-! ## Cell indexing: `gridIndex3Dto1D` (349-351) and the body of
`kernComputeIndices` (359-376). -/

def gridIndex3Dto1D (x y z gridResolution : ℤ) : ℤ :=
  x + y * gridResolution + z * gridResolution * gridResolution

/-- Integer 3-vector, for `glm::ivec3`. -/
@[ext]
structure I3 where
  x : ℤ
  y : ℤ
  z : ℤ
deriving DecidableEq

/-- `glm::ivec3(v)`: componentwise truncation toward zero. -/
noncomputable def truncVec (s : Vec3) : I3 := ⟨floatToInt s.x, floatToInt s.y, floatToInt s.z⟩

/-- `kernComputeIndices` cell computation for one particle:
`glm::ivec3 gridCells = inverseCellWidth * (-gridMin + pos[i])`, then
flattened with `gridIndex3Dto1D` at resolution `gridSideCount`. -/
noncomputable def particleCell (p : Vec3) : ℤ :=
  let g := truncVec (gridInverseCellWidth • (-gridMinimum + p))
  gridIndex3Dto1D g.x g.y g.z gridSideCount

/-! ## `calculateBoidNeighborCells` (lines 416-466).
The source initializes `x = y = z = 1`, computes the fractional part `aux` of
the (cell-space) position, and then has three `if` statements that are all
written against `x`: the `aux.y` and `aux.z` branches also assign `x = -1`
(`y` and `z` are never reassigned).  The embedding reproduces these
assignments literally as a chain of rebindings of `x`. -/

open Classical in
noncomputable def neighborSigns (s : Vec3) : I3 :=
  let t := truncVec s
  let aux : Vec3 := s - ⟨(t.x : ℝ), (t.y : ℝ), (t.z : ℝ)⟩
  let x0 : ℤ := 1
  let y : ℤ := 1
  let z : ℤ := 1
  let x1 : ℤ := if aux.x < 1/2 then -1 else x0
  let x2 : ℤ := if aux.y < 1/2 then -1 else x1
  let x3 : ℤ := if aux.z < 1/2 then -1 else x2
  ⟨x3, y, z⟩

/-- The body of the candidate filter loop: the cell `b + d`, or `-1` when it
falls outside the lattice. -/
def candCell (b d : I3) (gridResolution : ℤ) : ℤ :=
  let ex := b.x + d.x
  let ey := b.y + d.y
  let ez := b.z + d.z
  if ex < 0 ∨ ex ≥ gridResolution ∨ ey < 0 ∨ ey ≥ gridResolution ∨
     ez < 0 ∨ ez ≥ gridResolution then (-1 : ℤ)
  else gridIndex3Dto1D ex ey ez gridResolution

noncomputable def calculateBoidNeighborCells (s : Vec3) (gridResolution : ℤ) : List ℤ :=
  let sg := neighborSigns s
  let b := truncVec s
  let diffs : List I3 :=
    [⟨0, 0, 0⟩, ⟨sg.x, 0, 0⟩, ⟨0, sg.y, 0⟩, ⟨0, 0, sg.z⟩,
     ⟨sg.x, sg.y, 0⟩, ⟨0, sg.y, sg.z⟩, ⟨sg.x, 0, sg.z⟩, ⟨sg.x, sg.y, sg.z⟩]
  diffs.map (fun d => candCell b d gridResolution)

/-! ## Flocking rules: `computeVelocityChange` (lines 247-291).
The loop body (the three distance tests and accumulator updates) appears
verbatim in `computeVelocityChange`, `kernUpdateVelNeighborSearchScattered`
and `kernUpdateVelNeighborSearchCoherent`; it is embedded once as `ruleStep`
and the epilogue (means and scales) once as `finishRules`. -/

structure RuleAcc where
  center : Vec3
  numRule1 : ℕ
  c : Vec3
  perceived_velocity : Vec3
  numRule3 : ℕ

def RuleAcc.init : RuleAcc := ⟨0, 0, 0, 0, 0⟩

open Classical in
noncomputable def ruleStep (selfPos otherPos otherVel : Vec3) (a : RuleAcc) : RuleAcc :=
  let distance := dist3 selfPos otherPos
  let a1 := if distance < rule1Distance then
    { a with center := a.center + otherPos, numRule1 := a.numRule1 + 1 } else a
  let a2 := if distance < rule2Distance then
    { a1 with c := a1.c - (otherPos - selfPos) } else a1
  if distance < rule3Distance then
    { a2 with perceived_velocity := a2.perceived_velocity + otherVel,
              numRule3 := a2.numRule3 + 1 } else a2

open Classical in
noncomputable def finishRules (selfPos : Vec3) (a : RuleAcc) : Vec3 :=
  let centerC : Vec3 := if a.numRule1 ≠ 0 then
    rule1Scale • ((a.numRule1 : ℝ)⁻¹ • a.center - selfPos) else a.center
  let cC : Vec3 := rule2Scale • a.c
  let pvC : Vec3 := if a.numRule3 ≠ 0 then
    rule3Scale • ((a.numRule3 : ℝ)⁻¹ • a.perceived_velocity) else a.perceived_velocity
  centerC + cC + pvC

open Classical in
noncomputable def computeVelocityChange (N iSelf : ℕ) (pos vel : ℕ → Vec3) : Vec3 :=
  let a := (List.range N).foldl
    (fun acc i => if iSelf ≠ i then ruleStep (pos iSelf) (pos i) (vel i) acc else acc)
    RuleAcc.init
  finishRules (pos iSelf) a

/- The speed clamp in all three velocity kernels:
`if (glm::length(v) > maxSpeed) v = glm::normalize(v) * maxSpeed`. -/
open Classical in
noncomputable def clampSpeed (v : Vec3) : Vec3 :=
  if vlen v > maxSpeed then (maxSpeed / vlen v) • v else v

/-- The diagnostic test guarding `printf("Speed limit exceeded.")`; in the
source it is applied to `newVector` after the clamp has been applied. -/
def speedLimitWarning (w : Vec3) : Prop :=
  w.x > maxSpeed ∨ w.y > maxSpeed ∨ w.z > maxSpeed

/-- Per-thread result of `kernUpdateVelocityBruteForce` (lines 297-316). -/
noncomputable def bruteNewVel (N : ℕ) (pos vel1 : ℕ → Vec3) (i : ℕ) : Vec3 :=
  clampSpeed (computeVelocityChange N i pos vel1 + vel1 i)

/-- Whether thread `i` of `kernUpdateVelocityBruteForce` prints the
"Speed limit exceeded" warning (the test runs on the clamped vector). -/
noncomputable def bruteWarns (N : ℕ) (pos vel1 : ℕ → Vec3) (i : ℕ) : Prop :=
  speedLimitWarning (bruteNewVel N pos vel1 i)

/-! ## Vector facts used to reason about the clamp. -/

theorem vlen_nonneg (v : Vec3) : 0 ≤ vlen v := Real.sqrt_nonneg _

theorem comp_le_vlen (v : Vec3) : v.x ≤ vlen v ∧ v.y ≤ vlen v ∧ v.z ≤ vlen v := by
  unfold vlen
  refine ⟨?_, ?_, ?_⟩ <;>
    [ (calc v.x ≤ |v.x| := le_abs_self _
        _ = Real.sqrt (v.x ^ 2) := (Real.sqrt_sq_eq_abs _).symm
        _ ≤ _ := Real.sqrt_le_sqrt (by nlinarith [sq_nonneg v.y, sq_nonneg v.z]));
      (calc v.y ≤ |v.y| := le_abs_self _
        _ = Real.sqrt (v.y ^ 2) := (Real.sqrt_sq_eq_abs _).symm
        _ ≤ _ := Real.sqrt_le_sqrt (by nlinarith [sq_nonneg v.x, sq_nonneg v.z]));
      (calc v.z ≤ |v.z| := le_abs_self _
        _ = Real.sqrt (v.z ^ 2) := (Real.sqrt_sq_eq_abs _).symm
        _ ≤ _ := Real.sqrt_le_sqrt (by nlinarith [sq_nonneg v.x, sq_nonneg v.y]))]

theorem vlen_smul (c : ℝ) (v : Vec3) : vlen (c • v) = |c| * vlen v := by
  unfold vlen
  rw [Vec3.smul_def]
  have h : (c * v.x) ^ 2 + (c * v.y) ^ 2 + (c * v.z) ^ 2
      = c ^ 2 * (v.x ^ 2 + v.y ^ 2 + v.z ^ 2) := by ring
  rw [h, Real.sqrt_mul (sq_nonneg c), Real.sqrt_sq_eq_abs]

theorem clampSpeed_vlen_le (v : Vec3) : vlen (clampSpeed v) ≤ maxSpeed := by
  unfold clampSpeed
  split
  case isTrue h =>
    have hpos : 0 < vlen v := lt_trans (by unfold maxSpeed; norm_num) h
    rw [vlen_smul, abs_of_nonneg (div_nonneg (by unfold maxSpeed; norm_num) (le_of_lt hpos))]
    rw [div_mul_eq_mul_div, mul_div_assoc, div_self (ne_of_gt hpos), mul_one]
  case isFalse h => exact le_of_not_lt h

theorem clampSpeed_eq_of_le {v : Vec3} (h : vlen v ≤ maxSpeed) : clampSpeed v = v := by
  unfold clampSpeed
  rw [if_neg (not_lt_of_le h)]

/-! ## Cell boundary tables.
`kernResetIntBuffer` (lines 380-385) writes `value` into the first `n`
entries of an int buffer; the step functions launch it with `numObjects`
(not `gridCellCount`) as `n`.  `kernIdentifyCellStartEnd` (lines 387-414)
is one thread per sorted entry; the tables are modelled as total functions
`ℤ → ℤ` whose values outside the written cells are whatever the state held
before (uninitialized device memory on the first step). -/

def writeTbl (t : ℤ → ℤ) (c v : ℤ) : ℤ → ℤ := fun d => if d = c then v else t d

/-- `kernResetIntBuffer n buf value`, as launched on a cell table. -/
def resetIntBuffer (n : ℕ) (value : ℤ) (t : ℤ → ℤ) : ℤ → ℤ :=
  fun c => if 0 ≤ c ∧ c < (n : ℤ) then value else t c

/-- Sorted grid-index array access: `particleGridIndices[i]`. -/
def gAt (g : List ℤ) (i : ℕ) : ℤ := g.getD i 0

/-- One thread of `kernIdentifyCellStartEnd` (thread index `i`), acting on the
pair (start table, end table).  The source order is: the `i == N-1` check for
the end table, then the `i == 0` early return for the start table, then the
boundary-transition check. -/
def identifyThread (g : List ℤ) (p : (ℤ → ℤ) × (ℤ → ℤ)) (i : ℕ) : (ℤ → ℤ) × (ℤ → ℤ) :=
  let N := g.length
  let en1 := if 0 < i ∧ i = N - 1 then writeTbl p.2 (gAt g i) (i : ℤ) else p.2
  if i = 0 then (writeTbl p.1 (gAt g 0) 0, en1)
  else if i < N ∧ gAt g (i - 1) ≠ gAt g i then
    (writeTbl p.1 (gAt g i) (i : ℤ), writeTbl en1 (gAt g (i - 1)) ((i : ℤ) - 1))
  else (p.1, en1)

/-- `kernIdentifyCellStartEnd` over all `N` launched threads. -/
def identifyCellStartEnd (g : List ℤ) (st0 en0 : ℤ → ℤ) : (ℤ → ℤ) × (ℤ → ℤ) :=
  (List.range g.length).foldl (identifyThread g) (st0, en0)

/-- `i` is the first index holding value `c` in `g`. -/
def isFirstOcc (g : List ℤ) (c : ℤ) (i : ℕ) : Prop :=
  i < g.length ∧ gAt g i = c ∧ ∀ j, j < i → gAt g j ≠ c

/-- `i` is the last index holding value `c` in `g`. -/
def isLastOcc (g : List ℤ) (c : ℤ) (i : ℕ) : Prop :=
  i < g.length ∧ gAt g i = c ∧ ∀ j, i < j → j < g.length → gAt g j ≠ c

theorem isFirstOcc_unique {g : List ℤ} {c : ℤ} {i j : ℕ}
    (hi : isFirstOcc g c i) (hj : isFirstOcc g c j) : i = j := by
  rcases lt_trichotomy i j with h | h | h
  · exact absurd hi.2.1 (hj.2.2 i h)
  · exact h
  · exact absurd hj.2.1 (hi.2.2 j h)

theorem isLastOcc_unique {g : List ℤ} {c : ℤ} {i j : ℕ}
    (hi : isLastOcc g c i) (hj : isLastOcc g c j) : i = j := by
  rcases lt_trichotomy i j with h | h | h
  · exact absurd hj.2.1 (hi.2.2 j h hj.1)
  · exact h
  · exact absurd hi.2.1 (hj.2.2 i h hi.1)

theorem exists_firstOcc {g : List ℤ} {c : ℤ} {k : ℕ}
    (hk : k < g.length) (hc : gAt g k = c) : ∃ i, isFirstOcc g c i := by
  have hP : ∃ i, i < g.length ∧ gAt g i = c := ⟨k, hk, hc⟩
  obtain ⟨hlt, heq⟩ := Nat.find_spec hP
  refine ⟨Nat.find hP, hlt, heq, ?_⟩
  intro j hj hcj
  exact absurd (⟨lt_trans hj hlt, hcj⟩ : j < g.length ∧ gAt g j = c) (Nat.find_min hP hj)

theorem exists_lastOcc {g : List ℤ} {c : ℤ} {k : ℕ}
    (hk : k < g.length) (hc : gAt g k = c) : ∃ i, isLastOcc g c i := by
  have hspec := Nat.findGreatest_spec (P := fun i => i < g.length ∧ gAt g i = c)
    (m := k) (n := g.length - 1) (by omega) ⟨hk, hc⟩
  refine ⟨Nat.findGreatest (fun i => i < g.length ∧ gAt g i = c) (g.length - 1),
    hspec.1, hspec.2, ?_⟩
  intro j hj hjlen hcj
  exact Nat.findGreatest_is_greatest hj (by omega) ⟨hjlen, hcj⟩

theorem gAt_eq_get {g : List ℤ} {i : ℕ} (h : i < g.length) : gAt g i = g.get ⟨i, h⟩ := by
  simp [gAt, List.getD_eq_getElem?_getD, List.getElem?_eq_getElem h]

theorem gAt_mem {g : List ℤ} {i : ℕ} (h : i < g.length) : gAt g i ∈ g := by
  rw [gAt_eq_get h]; exact List.get_mem g i h

theorem mem_gAt {g : List ℤ} {c : ℤ} (h : c ∈ g) : ∃ k, k < g.length ∧ gAt g k = c := by
  obtain ⟨⟨k, hk⟩, rfl⟩ := List.mem_iff_get.mp h
  exact ⟨k, hk, gAt_eq_get hk⟩

theorem sorted_gAt_mono {g : List ℤ} (hs : g.Sorted (· ≤ ·)) {i j : ℕ}
    (hij : i ≤ j) (hj : j < g.length) : gAt g i ≤ gAt g j := by
  rcases eq_or_lt_of_le hij with rfl | hlt
  · exact le_refl _
  · have hi : i < g.length := lt_trans hlt hj
    have h := hs.rel_get_of_lt (a := ⟨i, hi⟩) (b := ⟨j, hj⟩) hlt
    rw [gAt_eq_get hi, gAt_eq_get hj]
    exact h


/-- Pointwise restatements of the two per-thread table updates performed by
`identifyThread`, proved equal to it in `identifyThread_eq`. -/
def startStep (g : List ℤ) (k : ℕ) (st : ℤ → ℤ) : ℤ → ℤ := fun c =>
  if k = 0 then (if c = gAt g 0 then 0 else st c)
  else if k < g.length ∧ gAt g (k - 1) ≠ gAt g k then
    (if c = gAt g k then (k : ℤ) else st c)
  else st c

def endStep (g : List ℤ) (k : ℕ) (en : ℤ → ℤ) : ℤ → ℤ := fun c =>
  if k ≠ 0 ∧ k < g.length ∧ gAt g (k - 1) ≠ gAt g k ∧ c = gAt g (k - 1) then (k : ℤ) - 1
  else if 0 < k ∧ k = g.length - 1 ∧ c = gAt g k then (k : ℤ)
  else en c

theorem writeTbl_apply (t : ℤ → ℤ) (a v c : ℤ) :
    writeTbl t a v c = if c = a then v else t c := rfl

theorem ite_app_fun {P : Prop} [Decidable P] (f g : ℤ → ℤ) (a : ℤ) :
    (if P then f else g) a = if P then f a else g a := by split <;> rfl

theorem identifyThread_fst_apply (g : List ℤ) (p : (ℤ → ℤ) × (ℤ → ℤ)) (k : ℕ) (c : ℤ) :
    (identifyThread g p k).1 c = startStep g k p.1 c := by
  unfold identifyThread
  by_cases h0 : k = 0
  · subst h0; rfl
  · rw [if_neg h0]
    by_cases ht : k < g.length ∧ gAt g (k - 1) ≠ gAt g k
    · rw [if_pos ht]
      show writeTbl p.1 (gAt g k) (k : ℤ) c = _
      rw [writeTbl_apply]
      unfold startStep
      rw [if_neg h0, if_pos ht]
    · rw [if_neg ht]
      show p.1 c = _
      unfold startStep
      rw [if_neg h0, if_neg ht]

theorem identifyThread_snd_apply (g : List ℤ) (p : (ℤ → ℤ) × (ℤ → ℤ)) (k : ℕ) (c : ℤ) :
    (identifyThread g p k).2 c = endStep g k p.2 c := by
  unfold identifyThread
  by_cases h0 : k = 0
  · subst h0; rfl
  · rw [if_neg h0]
    by_cases ht : k < g.length ∧ gAt g (k - 1) ≠ gAt g k
    · rw [if_pos ht]
      show writeTbl (if 0 < k ∧ k = g.length - 1 then writeTbl p.2 (gAt g k) (k : ℤ) else p.2)
        (gAt g (k - 1)) ((k : ℤ) - 1) c = _
      rw [writeTbl_apply]
      unfold endStep
      by_cases hc2 : c = gAt g (k - 1)
      · rw [if_pos hc2, if_pos (show k ≠ 0 ∧ k < g.length ∧ gAt g (k - 1) ≠ gAt g k ∧
          c = gAt g (k - 1) from ⟨h0, ht.1, ht.2, hc2⟩)]
      · rw [if_neg hc2, if_neg (show ¬(k ≠ 0 ∧ k < g.length ∧ gAt g (k - 1) ≠ gAt g k ∧
          c = gAt g (k - 1)) from fun h => hc2 h.2.2.2)]
        rw [ite_app_fun, writeTbl_apply]
        by_cases hB : 0 < k ∧ k = g.length - 1
        · rw [if_pos hB]
          by_cases hc1 : c = gAt g k
          · rw [if_pos hc1, if_pos (show 0 < k ∧ k = g.length - 1 ∧ c = gAt g k from
              ⟨hB.1, hB.2, hc1⟩)]
          · rw [if_neg hc1, if_neg (show ¬(0 < k ∧ k = g.length - 1 ∧ c = gAt g k) from
              fun h => hc1 h.2.2)]
        · rw [if_neg hB, if_neg (show ¬(0 < k ∧ k = g.length - 1 ∧ c = gAt g k) from
            fun h => hB ⟨h.1, h.2.1⟩)]
    · rw [if_neg ht]
      show (if 0 < k ∧ k = g.length - 1 then writeTbl p.2 (gAt g k) (k : ℤ) else p.2) c = _
      unfold endStep
      rw [ite_app_fun, writeTbl_apply]
      rw [if_neg (show ¬(k ≠ 0 ∧ k < g.length ∧ gAt g (k - 1) ≠ gAt g k ∧
        c = gAt g (k - 1)) from fun h => ht ⟨h.2.1, h.2.2.1⟩)]
      by_cases hB : 0 < k ∧ k = g.length - 1
      · rw [if_pos hB]
        by_cases hc1 : c = gAt g k
        · rw [if_pos hc1, if_pos (show 0 < k ∧ k = g.length - 1 ∧ c = gAt g k from
            ⟨hB.1, hB.2, hc1⟩)]
        · rw [if_neg hc1, if_neg (show ¬(0 < k ∧ k = g.length - 1 ∧ c = gAt g k) from
            fun h => hc1 h.2.2)]
      · rw [if_neg hB, if_neg (show ¬(0 < k ∧ k = g.length - 1 ∧ c = gAt g k) from
          fun h => hB ⟨h.1, h.2.1⟩)]

theorem identifyThread_eq (g : List ℤ) (p : (ℤ → ℤ) × (ℤ → ℤ)) (k : ℕ) :
    identifyThread g p k = (startStep g k p.1, endStep g k p.2) := by
  have h1 : (identifyThread g p k).1 = startStep g k p.1 :=
    funext (identifyThread_fst_apply g p k)
  have h2 : (identifyThread g p k).2 = endStep g k p.2 :=
    funext (identifyThread_snd_apply g p k)
  exact Prod.ext h1 h2

theorem foldl_identifyThread_split (g : List ℤ) (l : List ℕ) (p : (ℤ → ℤ) × (ℤ → ℤ)) :
    l.foldl (identifyThread g) p =
      (l.foldl (fun st i => startStep g i st) p.1, l.foldl (fun en i => endStep g i en) p.2) := by
  induction l generalizing p with
  | nil => rfl
  | cons a t ih => rw [List.foldl_cons, List.foldl_cons, List.foldl_cons, identifyThread_eq, ih]

theorem startStep_apply (g : List ℤ) (k : ℕ) (st : ℤ → ℤ) (c : ℤ) :
    startStep g k st c =
      if k = 0 then (if c = gAt g 0 then 0 else st c)
      else if k < g.length ∧ gAt g (k - 1) ≠ gAt g k then
        (if c = gAt g k then (k : ℤ) else st c)
      else st c := rfl

theorem endStep_apply (g : List ℤ) (k : ℕ) (en : ℤ → ℤ) (c : ℤ) :
    endStep g k en c =
      if k ≠ 0 ∧ k < g.length ∧ gAt g (k - 1) ≠ gAt g k ∧ c = gAt g (k - 1) then (k : ℤ) - 1
      else if 0 < k ∧ k = g.length - 1 ∧ c = gAt g k then (k : ℤ)
      else en c := rfl

theorem startFold_char {g : List ℤ} (hs : g.Sorted (· ≤ ·)) (st0 : ℤ → ℤ) :
    ∀ k, k ≤ g.length → ∀ c,
      (∀ i, isFirstOcc g c i →
        (List.range k).foldl (fun st i => startStep g i st) st0 c
          = if i < k then (i : ℤ) else st0 c)
      ∧ ((∀ i, ¬ isFirstOcc g c i) →
        (List.range k).foldl (fun st i => startStep g i st) st0 c = st0 c) := by
  intro k
  induction k with
  | zero =>
    intro _ c
    refine ⟨fun i _ => ?_, fun _ => rfl⟩
    simp
  | succ k ih =>
    intro hk1 c
    have hkN : k < g.length := hk1
    have hkle : k ≤ g.length := le_of_lt hkN
    have hfold : (List.range (k+1)).foldl (fun st i => startStep g i st) st0
        = startStep g k ((List.range k).foldl (fun st i => startStep g i st) st0) := by
      rw [List.range_succ, List.foldl_append, List.foldl_cons, List.foldl_nil]
    rw [hfold, startStep_apply]
    constructor
    · intro i hi
      by_cases h0 : k = 0
      · rw [if_pos h0]
        subst h0
        by_cases hc : c = gAt g 0
        · rw [if_pos hc]
          have hf0 : isFirstOcc g (gAt g 0) 0 :=
            ⟨hkN, rfl, fun j hj => absurd hj (Nat.not_lt_zero j)⟩
          have hi0 : i = 0 := isFirstOcc_unique hi (hc ▸ hf0)
          subst hi0
          rw [if_pos (by omega : (0:ℕ) < 0 + 1)]
          simp
        · rw [if_neg hc]
          have hik : i ≠ 0 := by
            intro h; subst h
            exact hc hi.2.1.symm
          have h1 := (ih hkle c).1 i hi
          rw [h1, if_neg (by omega), if_neg (by omega)]
      · rw [if_neg h0]
        by_cases ht : k < g.length ∧ gAt g (k - 1) ≠ gAt g k
        · rw [if_pos ht]
          by_cases hc : c = gAt g k
          · rw [if_pos hc]
            have hfk : isFirstOcc g (gAt g k) k := by
              refine ⟨hkN, rfl, fun j hj hje => ?_⟩
              have h1 : gAt g j ≤ gAt g (k - 1) := sorted_gAt_mono hs (by omega) (by omega)
              have h2 : gAt g (k - 1) ≤ gAt g k := sorted_gAt_mono hs (by omega) hkN
              exact ht.2 (le_antisymm h2 (hje ▸ h1))
            have hik : i = k := isFirstOcc_unique hi (hc ▸ hfk)
            subst hik
            rw [if_pos (by omega)]
          · rw [if_neg hc]
            have hik : i ≠ k := by
              intro h; subst h
              exact hc hi.2.1.symm
            have h1 := (ih hkle c).1 i hi
            rw [h1]
            by_cases hik2 : i < k
            · rw [if_pos hik2, if_pos (by omega)]
            · rw [if_neg hik2, if_neg (by omega)]
        · rw [if_neg ht]
          have hik : i ≠ k := by
            intro h; subst h
            have htr : gAt g (i - 1) = gAt g i := by
              by_contra hne
              exact ht ⟨hkN, hne⟩
            exact hi.2.2 (i - 1) (by omega) (htr.trans hi.2.1)
          have h1 := (ih hkle c).1 i hi
          rw [h1]
          by_cases hik2 : i < k
          · rw [if_pos hik2, if_pos (by omega)]
          · rw [if_neg hik2, if_neg (by omega)]
    · intro hno
      by_cases h0 : k = 0
      · rw [if_pos h0]
        by_cases hc : c = gAt g 0
        · obtain ⟨i, hi⟩ := exists_firstOcc (show 0 < g.length by omega) hc.symm
          exact absurd hi (hno i)
        · rw [if_neg hc]
          exact (ih hkle c).2 hno
      · rw [if_neg h0]
        by_cases ht : k < g.length ∧ gAt g (k - 1) ≠ gAt g k
        · rw [if_pos ht]
          by_cases hc : c = gAt g k
          · obtain ⟨i, hi⟩ := exists_firstOcc hkN hc.symm
            exact absurd hi (hno i)
          · rw [if_neg hc]
            exact (ih hkle c).2 hno
        · rw [if_neg ht]
          exact (ih hkle c).2 hno

/-- The thread index that writes `end[c]` when `j` is the last occurrence of
`c` in the sorted array. -/
def endWriter (N j : ℕ) : ℕ := if j = N - 1 then j else j + 1

theorem endFold_char {g : List ℤ} (hs : g.Sorted (· ≤ ·)) (hN : 2 ≤ g.length) (en0 : ℤ → ℤ) :
    ∀ k, k ≤ g.length → ∀ c,
      (∀ j, isLastOcc g c j →
        (List.range k).foldl (fun en i => endStep g i en) en0 c
          = if endWriter g.length j < k then (j : ℤ) else en0 c)
      ∧ ((∀ j, ¬ isLastOcc g c j) →
        (List.range k).foldl (fun en i => endStep g i en) en0 c = en0 c) := by
  intro k
  induction k with
  | zero =>
    intro _ c
    refine ⟨fun j _ => ?_, fun _ => rfl⟩
    simp
  | succ k ih =>
    intro hk1 c
    have hkN : k < g.length := hk1
    have hkle : k ≤ g.length := le_of_lt hkN
    have hfold : (List.range (k+1)).foldl (fun en i => endStep g i en) en0
        = endStep g k ((List.range k).foldl (fun en i => endStep g i en) en0) := by
      rw [List.range_succ, List.foldl_append, List.foldl_cons, List.foldl_nil]
    rw [hfold, endStep_apply]
    constructor
    · intro j hj
      by_cases hW2 : k ≠ 0 ∧ k < g.length ∧ gAt g (k - 1) ≠ gAt g k ∧ c = gAt g (k - 1)
      · rw [if_pos hW2]
        have hk0 : k ≠ 0 := hW2.1
        have hlast : isLastOcc g c (k - 1) := by
          refine ⟨by omega, hW2.2.2.2.symm, fun j' hj1 hj2 hje => ?_⟩
          have hk1 : gAt g (k - 1) ≤ gAt g k := sorted_gAt_mono hs (by omega) hkN
          have hlt : gAt g (k - 1) < gAt g k := lt_of_le_of_ne hk1 hW2.2.2.1
          have h2 : gAt g k ≤ gAt g j' := sorted_gAt_mono hs (by omega) hj2
          have hc2 : c = gAt g (k - 1) := hW2.2.2.2
          omega
        have hjk : j = k - 1 := isLastOcc_unique hj hlast
        subst hjk
        have hew : endWriter g.length (k - 1) = k := by
          unfold endWriter
          rw [if_neg (show ¬(k - 1 = g.length - 1) by omega)]
          omega
        rw [hew, if_pos (by omega)]
        omega
      · rw [if_neg hW2]
        by_cases hW1 : 0 < k ∧ k = g.length - 1 ∧ c = gAt g k
        · rw [if_pos hW1]
          have hlast : isLastOcc g c k := by
            refine ⟨hkN, hW1.2.2.symm, fun j' hj1 hj2 => absurd hj2 ?_⟩
            have hke : k = g.length - 1 := hW1.2.1
            omega
          have hjk : j = k := isLastOcc_unique hj hlast
          rw [hjk]
          have hew : endWriter g.length k = k := by
            unfold endWriter
            rw [if_pos hW1.2.1]
          rw [hew, if_pos (by omega)]
        · rw [if_neg hW1]
          have hne : endWriter g.length j ≠ k := by
            unfold endWriter
            by_cases hj1 : j = g.length - 1
            · rw [if_pos hj1]
              intro hjk
              exact hW1 ⟨by omega, by rw [← hjk]; exact hj1,
                by rw [← hjk]; exact hj.2.1.symm⟩
            · rw [if_neg hj1]
              intro hjk
              apply hW2
              have hjlt : j < g.length - 1 := by
                have := hj.1
                omega
              have hkj : k - 1 = j := by omega
              refine ⟨by omega, by omega, ?_, ?_⟩
              · rw [hkj, hj.2.1]
                exact (hj.2.2 k (by omega) (by omega)).symm
              · rw [hkj]
                exact hj.2.1.symm
          have h1 := (ih hkle c).1 j hj
          rw [h1]
          by_cases hlt : endWriter g.length j < k
          · rw [if_pos hlt, if_pos (by omega)]
          · rw [if_neg hlt, if_neg (by omega)]
    · intro hno
      by_cases hW2 : k ≠ 0 ∧ k < g.length ∧ gAt g (k - 1) ≠ gAt g k ∧ c = gAt g (k - 1)
      · obtain ⟨j, hj⟩ := exists_lastOcc (show k - 1 < g.length by omega) hW2.2.2.2.symm
        exact absurd hj (hno j)
      · rw [if_neg hW2]
        by_cases hW1 : 0 < k ∧ k = g.length - 1 ∧ c = gAt g k
        · obtain ⟨j, hj⟩ := exists_lastOcc hkN hW1.2.2.symm
          exact absurd hj (hno j)
        · rw [if_neg hW1]
          exact (ih hkle c).2 hno

theorem identify_start_first {g : List ℤ} {st0 en0 : ℤ → ℤ} {c : ℤ} {i : ℕ}
    (hs : g.Sorted (· ≤ ·)) (hi : isFirstOcc g c i) :
    (identifyCellStartEnd g st0 en0).1 c = (i : ℤ) := by
  unfold identifyCellStartEnd
  rw [foldl_identifyThread_split]
  show (List.range g.length).foldl (fun st i => startStep g i st) st0 c = (i : ℤ)
  rw [(startFold_char hs st0 g.length le_rfl c).1 i hi, if_pos hi.1]

theorem identify_start_not_mem {g : List ℤ} {st0 en0 : ℤ → ℤ} {c : ℤ}
    (hs : g.Sorted (· ≤ ·)) (hc : c ∉ g) :
    (identifyCellStartEnd g st0 en0).1 c = st0 c := by
  unfold identifyCellStartEnd
  rw [foldl_identifyThread_split]
  show (List.range g.length).foldl (fun st i => startStep g i st) st0 c = st0 c
  refine (startFold_char hs st0 g.length le_rfl c).2 ?_
  intro i hi
  exact hc (hi.2.1 ▸ gAt_mem hi.1)

theorem identify_end_last {g : List ℤ} {st0 en0 : ℤ → ℤ} {c : ℤ} {j : ℕ}
    (hs : g.Sorted (· ≤ ·)) (hN : 2 ≤ g.length) (hj : isLastOcc g c j) :
    (identifyCellStartEnd g st0 en0).2 c = (j : ℤ) := by
  unfold identifyCellStartEnd
  rw [foldl_identifyThread_split]
  show (List.range g.length).foldl (fun en i => endStep g i en) en0 c = (j : ℤ)
  rw [(endFold_char hs hN en0 g.length le_rfl c).1 j hj]
  have h1 := hj.1
  have hlt : endWriter g.length j < g.length := by
    unfold endWriter
    split <;> omega
  rw [if_pos hlt]

theorem identify_end_not_mem {g : List ℤ} {st0 en0 : ℤ → ℤ} {c : ℤ}
    (hs : g.Sorted (· ≤ ·)) (hN : 2 ≤ g.length) (hc : c ∉ g) :
    (identifyCellStartEnd g st0 en0).2 c = en0 c := by
  unfold identifyCellStartEnd
  rw [foldl_identifyThread_split]
  show (List.range g.length).foldl (fun en i => endStep g i en) en0 c = en0 c
  refine (endFold_char hs hN en0 g.length le_rfl c).2 ?_
  intro j hj
  exact hc (hj.2.1 ▸ gAt_mem hj.1)

/-- The quantity of the partition property: the sum of inclusive range sizes
`end[c] - start[c] + 1` over the cells of the lattice whose start entry is not
the sentinel `-1`. -/
def boundarySum (M : ℤ) (st en : ℤ → ℤ) : ℤ :=
  ∑ c in Finset.Ico (0 : ℤ) M, (if st c = -1 then 0 else en c - st c + 1)

/-- C3 (amended): for `N ≥ 2`, when the boundary tables are fully reset to
`-1` before `kernIdentifyCellStartEnd` runs over a sorted in-range cell
array, the inclusive ranges of the populated cells partition the sorted
sequence: summing `end[c] - start[c] + 1` over the cells with
`start[c] ≠ -1` yields exactly `N`.  (For `N = 1` no thread writes the end
table — the `i > 0 && i == N-1` guard fails — so the sum is `0`, and the
per-step reset itself only covers `numObjects` cells, see C4.) -/
theorem boundarySum_eq_length {g : List ℤ} {M : ℤ} (hs : g.Sorted (· ≤ ·))
    (hN : 2 ≤ g.length) (hbound : ∀ x ∈ g, 0 ≤ x ∧ x < M) :
    boundarySum M (identifyCellStartEnd g (fun _ => -1) (fun _ => -1)).1
      (identifyCellStartEnd g (fun _ => -1) (fun _ => -1)).2 = (g.length : ℤ) := by
  unfold boundarySum
  have hsub : g.toFinset ⊆ Finset.Ico (0 : ℤ) M := by
    intro c hc
    exact Finset.mem_Ico.mpr (hbound c (List.mem_toFinset.mp hc))
  have hzero : ∀ c ∈ Finset.Ico (0 : ℤ) M, c ∉ g.toFinset →
      (if (identifyCellStartEnd g (fun _ => -1) (fun _ => -1)).1 c = -1 then 0
        else (identifyCellStartEnd g (fun _ => -1) (fun _ => -1)).2 c
          - (identifyCellStartEnd g (fun _ => -1) (fun _ => -1)).1 c + 1) = 0 := by
    intro c _ hc
    rw [identify_start_not_mem hs (fun h => hc (List.mem_toFinset.mpr h)), if_pos rfl]
  rw [← Finset.sum_subset hsub hzero]
  have hterm : ∀ c ∈ g.toFinset,
      (if (identifyCellStartEnd g (fun _ => -1) (fun _ => -1)).1 c = -1 then 0
        else (identifyCellStartEnd g (fun _ => -1) (fun _ => -1)).2 c
          - (identifyCellStartEnd g (fun _ => -1) (fun _ => -1)).1 c + 1)
      = ((((Finset.range g.length).filter (fun k => gAt g k = c)).card : ℤ)) := by
    intro c hc
    obtain ⟨k, hk, hck⟩ := mem_gAt (List.mem_toFinset.mp hc)
    obtain ⟨i, hi⟩ := exists_firstOcc hk hck
    obtain ⟨j, hj⟩ := exists_lastOcc hk hck
    rw [identify_start_first hs hi, identify_end_last hs hN hj,
      if_neg (show ¬((i : ℤ) = -1) by omega)]
    have hfilter : (Finset.range g.length).filter (fun k => gAt g k = c)
        = Finset.Icc i j := by
      ext m
      simp only [Finset.mem_filter, Finset.mem_range, Finset.mem_Icc]
      constructor
      · rintro ⟨hm, hgm⟩
        constructor
        · by_contra hlt
          push_neg at hlt
          exact hi.2.2 m hlt hgm
        · by_contra hlt
          push_neg at hlt
          exact hj.2.2 m hlt hm hgm
      · rintro ⟨h1, h2⟩
        have hmN : m < g.length := lt_of_le_of_lt h2 hj.1
        refine ⟨hmN, ?_⟩
        have ha : gAt g i ≤ gAt g m := sorted_gAt_mono hs h1 hmN
        have hb : gAt g m ≤ gAt g j := sorted_gAt_mono hs h2 hj.1
        rw [hi.2.1] at ha
        rw [hj.2.1] at hb
        exact le_antisymm hb ha
    rw [hfilter, Nat.card_Icc]
    have hij : i ≤ j := by
      by_contra h
      push_neg at h
      exact hi.2.2 j h hj.2.1
    omega
  rw [Finset.sum_congr rfl hterm]
  have hmem : ∀ k ∈ Finset.range g.length, gAt g k ∈ g.toFinset := by
    intro k hk
    exact List.mem_toFinset.mpr (gAt_mem (Finset.mem_range.mp hk))
  rw [← Nat.cast_sum]
  rw [← Finset.card_eq_sum_card_fiberwise hmem]
  simp

/-! ## Sort-by-key (`thrust::sort_by_key`).
The sort is modelled as insertion sort on (cell index, slot index) pairs
ordered by key.  The spec leaves key-tie order unspecified; the model fixes
one admissible ascending order. -/

def keyLE : ℤ × ℕ → ℤ × ℕ → Prop := fun a b => a.1 ≤ b.1

instance : DecidableRel keyLE := fun a b => Int.decLe a.1 b.1

instance : IsTotal (ℤ × ℕ) keyLE := ⟨fun a b => Int.le_total a.1 b.1⟩

instance : IsTrans (ℤ × ℕ) keyLE := ⟨fun _ _ _ h1 h2 => le_trans h1 h2⟩

def sortPairs (l : List (ℤ × ℕ)) : List (ℤ × ℕ) := List.insertionSort keyLE l

/-! ## Simulation state and the per-step pipeline.
The state carries the six device buffers and the two cell tables.  Buffers
are total functions; entries at or beyond `N` model memory the kernels never
wrote.  `OobEnv` gives the (unspecified) results of genuinely out-of-bounds
reads performed by the neighbor-search kernels when a boundary-table entry
is stale or the `-1` sentinel enters the `start..end` loop. -/

structure SimState where
  N : ℕ
  pos : ℕ → Vec3
  vel1 : ℕ → Vec3
  vel2 : ℕ → Vec3
  pos_co : ℕ → Vec3
  vel_co : ℕ → Vec3
  startTbl : ℤ → ℤ
  endTbl : ℤ → ℤ

structure OobEnv where
  oobSlot : ℤ → ℤ
  oobPos : ℤ → Vec3
  oobVel : ℤ → Vec3
  oobPosCo : ℤ → Vec3
  oobVelCo : ℤ → Vec3

/-- `dev_particleArrayIndices[j]` for an arbitrary (possibly out-of-bounds)
index `j`, given the sorted slot list. -/
def readSlot (N : ℕ) (slots : List ℕ) (env : OobEnv) (j : ℤ) : ℤ :=
  if 0 ≤ j ∧ j < (N : ℤ) then (slots.getD j.toNat 0 : ℤ) else env.oobSlot j

/-- Read a `glm::vec3` device buffer of length `N` at a possibly
out-of-bounds index. -/
def readVecBuf (N : ℕ) (buf : ℕ → Vec3) (oob : ℤ → Vec3) (b : ℤ) : Vec3 :=
  if 0 ≤ b ∧ b < (N : ℤ) then buf b.toNat else oob b

/-- `kernComputeIndices` output as (cell, slot) pairs, then sorted. -/
noncomputable def statePairs (s : SimState) : List (ℤ × ℕ) :=
  (List.range s.N).map (fun i => (particleCell (s.pos i), i))

noncomputable def sortedPairs (s : SimState) : List (ℤ × ℕ) := sortPairs (statePairs s)

noncomputable def sortedCells (s : SimState) : List ℤ := (sortedPairs s).map Prod.fst

noncomputable def sortedSlots (s : SimState) : List ℕ := (sortedPairs s).map Prod.snd

/-- Boundary tables as built by a grid step: `kernResetIntBuffer` launched
with `numObjects` (not `gridCellCount`) on both tables, then
`kernIdentifyCellStartEnd` over the sorted cell array. -/
noncomputable def buildTables (s : SimState) : (ℤ → ℤ) × (ℤ → ℤ) :=
  identifyCellStartEnd (sortedCells s)
    (resetIntBuffer s.N (-1) s.startTbl) (resetIntBuffer s.N (-1) s.endTbl)

/-- `for (int j = start; j <= end; j++)` (scattered: end inclusive). -/
def intRangeIncl (a b : ℤ) : List ℤ :=
  (List.range (b + 1 - a).toNat).map (fun k : ℕ => a + (k : ℤ))

/-- `for (int j = start; j < end; j++)` (coherent: end exclusive). -/
def intRangeExcl (a b : ℤ) : List ℤ :=
  (List.range (b - a).toNat).map (fun k : ℕ => a + (k : ℤ))

/-- The computation of one thread of `kernUpdateVelNeighborSearchScattered`
(lines 468-563) for the particle `li = particleArrayIndices[index]` it
dereferences: everything after the first line depends on the thread index
only through `li`.  The loop-local `int b` is inlined at its three uses. -/
noncomputable def scatteredCompute (s : SimState) (env : OobEnv) (li : ℕ) : Vec3 :=
  let slots := sortedSlots s
  let spacialIndex := gridInverseCellWidth • (s.pos li - gridMinimum)
  let nbrs := calculateBoidNeighborCells spacialIndex gridSideCount
  let tbls := buildTables s
  let currentPos := s.pos li
  let acc := nbrs.foldl (fun acc n =>
    if n < 0 then acc
    else
      (intRangeIncl (tbls.1 n) (tbls.2 n)).foldl (fun acc j =>
        if (li : ℤ) ≠ readSlot s.N slots env j then
          ruleStep currentPos (readVecBuf s.N s.pos env.oobPos (readSlot s.N slots env j))
            (readVecBuf s.N s.vel1 env.oobVel (readSlot s.N slots env j)) acc
        else acc) acc) RuleAcc.init
  clampSpeed (finishRules currentPos acc + s.vel1 li)

/-- The contents of `dev_vel2` after the scattered velocity kernel: thread
`index` writes slot `particleArrayIndices[index]` with the value computed
for that particle. -/
noncomputable def scatteredVel2 (s : SimState) (env : OobEnv) : ℕ → Vec3 :=
  (List.range s.N).foldl (fun buf index =>
    fun q => if q = (sortedSlots s).getD index 0
      then scatteredCompute s env ((sortedSlots s).getD index 0) else buf q) s.vel2

/-- `Boids::stepSimulationNaive` (lines 679-691): brute-force velocities into
`dev_vel2`, position integration reading `dev_vel1`, then swap. -/
noncomputable def stepNaive (dt : ℝ) (s : SimState) : SimState :=
  let v2 := fun i => if i < s.N then bruteNewVel s.N s.pos s.vel1 i else s.vel2 i
  let pos2 := fun i => if i < s.N then updatePosPoint dt (s.pos i) (s.vel1 i) else s.pos i
  { s with pos := pos2, vel1 := v2, vel2 := s.vel1 }

/-- `Boids::stepSimulationScatteredGrid` (lines 693-739): indices, sort,
reset (with `numObjects`), identify, scattered velocities into `dev_vel2`,
position integration reading `dev_vel2`, then swap of the velocity buffers. -/
noncomputable def stepScattered (dt : ℝ) (env : OobEnv) (s : SimState) : SimState :=
  let tbls := buildTables s
  let v2 := scatteredVel2 s env
  let pos2 := fun i => if i < s.N then updatePosPoint dt (s.pos i) (v2 i) else s.pos i
  { s with pos := pos2, vel1 := v2, vel2 := s.vel1,
           startTbl := tbls.1, endTbl := tbls.2 }

/-- One thread of `kernUpdateVelNeighborSearchCoherent` (lines 565-663),
operating on the reordered buffers; the loop bound is exclusive and the
sorted index is the particle index. -/
noncomputable def coherentThreadVel (s : SimState) (env : OobEnv)
    (posC velC : ℕ → Vec3) (li : ℕ) : Vec3 :=
  let spacialIndex := gridInverseCellWidth • (posC li - gridMinimum)
  let nbrs := calculateBoidNeighborCells spacialIndex gridSideCount
  let tbls := buildTables s
  let currentPos := posC li
  let acc := nbrs.foldl (fun acc n =>
    if n < 0 then acc
    else
      (intRangeExcl (tbls.1 n) (tbls.2 n)).foldl (fun acc j =>
        if (li : ℤ) ≠ j then
          ruleStep currentPos (readVecBuf s.N posC env.oobPosCo j)
            (readVecBuf s.N velC env.oobVelCo j) acc
        else acc) acc) RuleAcc.init
  clampSpeed (finishRules currentPos acc + velC li)

/-- `Boids::stepSimulationCoherentGrid` (lines 741-797): reset (with
`numObjects`), indices, sort, identify, `kernPropogateCoherency` into the
coherent buffers, coherent velocities written into `dev_vel1`, position
integration on `dev_pos_co` reading `dev_vel1`, then
`swap(dev_vel_co, dev_vel2)` and `swap(dev_pos, dev_pos_co)`. -/
noncomputable def stepCoherent (dt : ℝ) (env : OobEnv) (s : SimState) : SimState :=
  let tbls := buildTables s
  let slots := sortedSlots s
  let posC := fun i => if i < s.N then s.pos (slots.getD i 0) else s.pos_co i
  let velC := fun i => if i < s.N then s.vel1 (slots.getD i 0) else s.vel_co i
  let v1 := fun i => if i < s.N then coherentThreadVel s env posC velC i else s.vel1 i
  let posC2 := fun i => if i < s.N then updatePosPoint dt (posC i) (v1 i) else posC i
  { N := s.N, pos := posC2, vel1 := v1, vel2 := velC,
    pos_co := s.pos, vel_co := s.vel2, startTbl := tbls.1, endTbl := tbls.2 }

/-! ## Coordinate range predicates and wrap facts. -/

def coordInRange (t : ℝ) : Prop := -scene_scale ≤ t ∧ t ≤ scene_scale

def posInRange (p : Vec3) : Prop := coordInRange p.x ∧ coordInRange p.y ∧ coordInRange p.z

theorem wrapCoord_low {t : ℝ} (h : t < -scene_scale) : wrapCoord t = scene_scale := by
  unfold wrapCoord
  rw [if_pos h, if_neg (by unfold scene_scale; norm_num)]

theorem wrapCoord_high {t : ℝ} (h : scene_scale < t) : wrapCoord t = -scene_scale := by
  unfold wrapCoord
  have hs : (0:ℝ) < scene_scale := by unfold scene_scale; norm_num
  rw [if_neg (show ¬ t < -scene_scale by push_neg; linarith), if_pos h]

theorem wrapCoord_id {t : ℝ} (h1 : -scene_scale ≤ t) (h2 : t ≤ scene_scale) :
    wrapCoord t = t := by
  unfold wrapCoord
  rw [if_neg (show ¬ t < -scene_scale by push_neg; exact h1),
    if_neg (show ¬ t > scene_scale by push_neg; exact h2)]

theorem wrapCoord_mem (t : ℝ) : coordInRange (wrapCoord t) := by
  have hs : (0:ℝ) < scene_scale := by unfold scene_scale; norm_num
  by_cases h1 : t < -scene_scale
  · rw [wrapCoord_low h1]
    exact ⟨by linarith, le_refl _⟩
  · by_cases h2 : scene_scale < t
    · rw [wrapCoord_high h2]
      exact ⟨le_refl _, by linarith⟩
    · push_neg at h1 h2
      rw [wrapCoord_id h1 h2]
      exact ⟨h1, h2⟩

/-- C7: the integrator computes `pos + vel*dt` and wraps each coordinate
independently — a coordinate below `-scene_scale` is reset to exactly
`+scene_scale`, one above `+scene_scale` to exactly `-scene_scale`, and an
in-range coordinate is kept; consequently a particle whose coordinates
entered in `[-scene_scale, scene_scale]` and whose displacement is at most
`2*scene_scale` ends the step with every coordinate in that interval. -/
theorem kernUpdatePos_semantics (dt : ℝ) (p v : Vec3) :
    (updatePosPoint dt p v =
      ⟨wrapCoord ((p + dt • v).x), wrapCoord ((p + dt • v).y), wrapCoord ((p + dt • v).z)⟩)
    ∧ (∀ t : ℝ, (t < -scene_scale → wrapCoord t = scene_scale)
        ∧ (scene_scale < t → wrapCoord t = -scene_scale)
        ∧ (-scene_scale ≤ t → t ≤ scene_scale → wrapCoord t = t))
    ∧ (posInRange p → vlen (dt • v) ≤ 2 * scene_scale →
        posInRange (updatePosPoint dt p v)) := by
  refine ⟨rfl, fun t => ⟨wrapCoord_low, wrapCoord_high, wrapCoord_id⟩, fun _ _ => ?_⟩
  exact ⟨wrapCoord_mem _, wrapCoord_mem _, wrapCoord_mem _⟩

theorem kernUpdatePos_semantics_witness :
    posInRange ⟨0, 0, 0⟩ ∧ vlen ((1:ℝ) • (⟨1, 0, 0⟩ : Vec3)) ≤ 2 * scene_scale ∧
      posInRange (updatePosPoint 1 ⟨0, 0, 0⟩ ⟨1, 0, 0⟩) := by
  have h1 : posInRange (⟨0, 0, 0⟩ : Vec3) := by
    unfold posInRange coordInRange scene_scale
    norm_num
  have h2 : vlen ((1:ℝ) • (⟨1, 0, 0⟩ : Vec3)) ≤ 2 * scene_scale := by
    unfold vlen scene_scale
    rw [Vec3.smul_def]
    norm_num
  exact ⟨h1, h2, (kernUpdatePos_semantics 1 ⟨0, 0, 0⟩ ⟨1, 0, 0⟩).2.2 h1 h2⟩

/-! ## In-domain grid indexing (C10). -/

theorem floatToInt_bounds {t : ℝ} (h1 : (1:ℝ) ≤ t) (h2 : t ≤ 21) :
    1 ≤ floatToInt t ∧ floatToInt t ≤ 21 := by
  unfold floatToInt
  rw [if_pos (by linarith)]
  constructor
  · exact Int.le_floor.mpr (by push_cast; linarith)
  · calc ⌊t⌋ ≤ ⌊((21 : ℤ) : ℝ)⌋ := Int.floor_mono (by push_cast; linarith)
      _ = 21 := Int.floor_intCast 21

/-- C10: a position with all coordinates in `[-scene_scale, scene_scale]`
receives a flattened grid-cell identifier inside `[0, gridCellCount)`: the
derived grid strictly covers the wrapped domain, so in-domain positions never
index outside the boundary tables. -/
theorem particleCell_in_bounds (p : Vec3) (h : posInRange p) :
    0 ≤ particleCell p ∧ particleCell p < gridCellCount := by
  obtain ⟨⟨hx1, hx2⟩, ⟨hy1, hy2⟩, ⟨hz1, hz2⟩⟩ := h
  unfold scene_scale at hx1 hx2 hy1 hy2 hz1 hz2
  unfold particleCell truncVec
  have harg : ∀ t : ℝ, -100 ≤ t → t ≤ 100 →
      (1:ℝ) ≤ gridInverseCellWidth * (-gridMinimum.x + t)
      ∧ gridInverseCellWidth * (-gridMinimum.x + t) ≤ 21 := by
    intro t ht1 ht2
    rw [gridInverseCellWidth_eq, gridMinimum_eq]
    norm_num
    constructor <;> linarith
  have hxc := floatToInt_bounds (harg p.x hx1 hx2).1 (harg p.x hx1 hx2).2
  have hyc := floatToInt_bounds (harg p.y hy1 hy2).1 (harg p.y hy1 hy2).2
  have hzc := floatToInt_bounds (harg p.z hz1 hz2).1 (harg p.z hz1 hz2).2
  have hcomp : (gridInverseCellWidth • (-gridMinimum + p)).x
      = gridInverseCellWidth * (-gridMinimum.x + p.x)
      ∧ (gridInverseCellWidth • (-gridMinimum + p)).y
      = gridInverseCellWidth * (-gridMinimum.y + p.y)
      ∧ (gridInverseCellWidth • (-gridMinimum + p)).z
      = gridInverseCellWidth * (-gridMinimum.z + p.z) := by
    refine ⟨rfl, rfl, rfl⟩
  have hyy : gridMinimum.y = gridMinimum.x := by rw [gridMinimum_eq]
  have hzz : gridMinimum.z = gridMinimum.x := by rw [gridMinimum_eq]
  rw [hcomp.1, hcomp.2.1, hcomp.2.2, hyy, hzz] at *
  unfold gridIndex3Dto1D
  rw [gridSideCount_eq, gridCellCount_eq]
  obtain ⟨ha1, ha2⟩ := hxc
  obtain ⟨hb1, hb2⟩ := hyc
  obtain ⟨hc1, hc2⟩ := hzc
  dsimp only
  constructor <;> nlinarith

theorem particleCell_in_bounds_witness :
    posInRange ⟨0, 0, 0⟩ ∧ 0 ≤ particleCell ⟨0, 0, 0⟩ ∧
      particleCell ⟨0, 0, 0⟩ < gridCellCount := by
  have h : posInRange (⟨0, 0, 0⟩ : Vec3) := by
    unfold posInRange coordInRange scene_scale
    norm_num
  exact ⟨h, particleCell_in_bounds ⟨0, 0, 0⟩ h⟩

/-- C4 (code bug): the boundary-table reset kernel is launched with
`numObjects` rather than `gridCellCount`, so with one boid the table entry of
cell 1 — a cell of the 10648-cell lattice — keeps its stale value 7 instead
of being reset to the sentinel `-1`; only index 0 is reset. -/
theorem resetIntBuffer_misses_cells :
    gridCellCount = 10648 ∧
    resetIntBuffer 1 (-1) (fun _ => 7) 0 = -1 ∧
    resetIntBuffer 1 (-1) (fun _ => 7) 1 = 7 := by
  refine ⟨gridCellCount_eq, ?_, ?_⟩ <;> unfold resetIntBuffer <;> norm_num

/-! ## Componentwise vector facts. -/

@[simp] theorem Vec3.add_x (a b : Vec3) : (a + b).x = a.x + b.x := rfl

@[simp] theorem Vec3.add_y (a b : Vec3) : (a + b).y = a.y + b.y := rfl

@[simp] theorem Vec3.add_z (a b : Vec3) : (a + b).z = a.z + b.z := rfl

@[simp] theorem Vec3.sub_x (a b : Vec3) : (a - b).x = a.x - b.x := rfl

@[simp] theorem Vec3.sub_y (a b : Vec3) : (a - b).y = a.y - b.y := rfl

@[simp] theorem Vec3.sub_z (a b : Vec3) : (a - b).z = a.z - b.z := rfl

@[simp] theorem Vec3.smul_x (c : ℝ) (a : Vec3) : (c • a).x = c * a.x := rfl

@[simp] theorem Vec3.smul_y (c : ℝ) (a : Vec3) : (c • a).y = c * a.y := rfl

@[simp] theorem Vec3.smul_z (c : ℝ) (a : Vec3) : (c • a).z = c * a.z := rfl

@[simp] theorem Vec3.zero_x : (0 : Vec3).x = 0 := rfl

@[simp] theorem Vec3.zero_y : (0 : Vec3).y = 0 := rfl

@[simp] theorem Vec3.zero_z : (0 : Vec3).z = 0 := rfl

@[simp] theorem Vec3.neg_x (a : Vec3) : (-a).x = -a.x := rfl

@[simp] theorem Vec3.neg_y (a : Vec3) : (-a).y = -a.y := rfl

@[simp] theorem Vec3.neg_z (a : Vec3) : (-a).z = -a.z := rfl

instance : AddCommMonoid Vec3 where
  add_assoc a b c := by ext <;> simp <;> ring
  add_comm a b := by ext <;> simp <;> ring
  zero_add a := by ext <;> simp
  add_zero a := by ext <;> simp
  nsmul := nsmulRec

/-! ## C8: the "Speed limit exceeded" diagnostic. -/

theorem finishRules_init (p : Vec3) : finishRules p RuleAcc.init = 0 := by
  unfold finishRules RuleAcc.init
  dsimp only
  rw [if_neg (show ¬((0:ℕ) ≠ 0) by decide), if_neg (show ¬((0:ℕ) ≠ 0) by decide)]
  ext <;> simp

theorem computeVelocityChange_single (pos vel : ℕ → Vec3) :
    computeVelocityChange 1 0 pos vel = 0 := by
  unfold computeVelocityChange
  rw [show List.range 1 = [0] from rfl, List.foldl_cons, List.foldl_nil,
    if_neg (show ¬((0:ℕ) ≠ 0) by decide)]
  exact finishRules_init _

/-- C8 (amended): the diagnostic tests the components of the velocity after
the clamp; since clamping bounds each component by `maxSpeed`, with exact
arithmetic the warning is never emitted, and it changes no state. -/
theorem speed_warning_never_fires (N : ℕ) (pos vel1 : ℕ → Vec3) (i : ℕ) :
    ¬ bruteWarns N pos vel1 i := by
  unfold bruteWarns speedLimitWarning bruteNewVel
  intro h
  have hlen := clampSpeed_vlen_le (computeVelocityChange N i pos vel1 + vel1 i)
  have hcomp := comp_le_vlen (clampSpeed (computeVelocityChange N i pos vel1 + vel1 i))
  rcases h with h | h | h <;> linarith [hcomp.1, hcomp.2.1, hcomp.2.2]

/-- C8 counterexample: with one boid of velocity `(2,0,0)` the computed
velocity component nominally exceeds `maxSpeed` before clamping, yet no
warning is emitted, because the source checks the already-clamped vector. -/
theorem speed_warning_checks_clamped_value :
    ((computeVelocityChange 1 0 (fun _ => ⟨0,0,0⟩) (fun _ => ⟨2,0,0⟩)
        + (⟨2,0,0⟩ : Vec3)).x > maxSpeed)
    ∧ ¬ bruteWarns 1 (fun _ => ⟨0,0,0⟩) (fun _ => ⟨2,0,0⟩) 0 := by
  have hcvc : computeVelocityChange 1 0 (fun _ => ⟨0,0,0⟩) (fun _ => ⟨2,0,0⟩) = 0 :=
    computeVelocityChange_single _ _
  have hzadd : (0 : Vec3) + (⟨2,0,0⟩ : Vec3) = ⟨2,0,0⟩ := by ext <;> simp
  have hclamp : clampSpeed ⟨2,0,0⟩ = ⟨1,0,0⟩ := by
    unfold clampSpeed
    have hlen : vlen (⟨2,0,0⟩ : Vec3) = 2 := by
      unfold vlen
      norm_num
      rw [show (4:ℝ) = 2^2 by norm_num, Real.sqrt_sq (by norm_num)]
    rw [hlen, if_pos (by unfold maxSpeed; norm_num)]
    unfold maxSpeed
    ext <;> simp
  constructor
  · rw [hcvc, hzadd]
    unfold maxSpeed
    norm_num
  · unfold bruteWarns speedLimitWarning bruteNewVel
    rw [hcvc]
    rw [show (fun (_ : ℕ) => (⟨2,0,0⟩ : Vec3)) 0 = ⟨2,0,0⟩ from rfl, hzadd, hclamp]
    unfold maxSpeed
    intro hcon
    rcases hcon with h | h | h
    · simp at h
    · simp at h
      linarith
    · simp at h
      linarith

/-! ## C2: the 8-candidate neighbor-cell selection. -/

theorem floatToInt_117 : floatToInt (11.7 : ℝ) = 11 := by
  unfold floatToInt
  rw [if_pos (by norm_num)]
  rw [Int.floor_eq_iff]
  constructor <;> norm_num

theorem floatToInt_112 : floatToInt (11.2 : ℝ) = 11 := by
  unfold floatToInt
  rw [if_pos (by norm_num)]
  rw [Int.floor_eq_iff]
  constructor <;> norm_num

/-- C2 (code bug): at cell-space position `(11.7, 11.2, 11.2)` the fractional
parts are `(.7, .2, .2)`, so the intended per-axis offsets are `(+1, -1, -1)`;
but the `aux.y`/`aux.z` branches overwrite `x`, producing offsets
`(-1, +1, +1)`.  The computed candidate list is the `(-1,+1,+1)` octant of
cell `(11,11,11)` and does not contain the intended diagonal cell
`(12,10,10)`. -/
theorem neighborCells_defect :
    calculateBoidNeighborCells ⟨11.7, 11.2, 11.2⟩ 22
      = [5577, 5576, 5599, 6061, 5598, 6083, 6060, 6082]
    ∧ gridIndex3Dto1D 12 10 10 22 ∉ calculateBoidNeighborCells ⟨11.7, 11.2, 11.2⟩ 22 := by
  have ht : truncVec ⟨11.7, 11.2, 11.2⟩ = ⟨11, 11, 11⟩ := by
    unfold truncVec
    dsimp only
    rw [floatToInt_117, floatToInt_112]
  have hsg : neighborSigns ⟨11.7, 11.2, 11.2⟩ = ⟨-1, 1, 1⟩ := by
    unfold neighborSigns
    rw [ht]
    dsimp only
    simp only [Vec3.sub_x, Vec3.sub_y, Vec3.sub_z]
    rw [if_pos (show (11.2:ℝ) - ((11:ℤ):ℝ) < 1/2 by push_cast; norm_num)]
  have hmain : calculateBoidNeighborCells ⟨11.7, 11.2, 11.2⟩ 22
      = [5577, 5576, 5599, 6061, 5598, 6083, 6060, 6082] := by
    unfold calculateBoidNeighborCells
    rw [hsg, ht]
    decide
  refine ⟨hmain, ?_⟩
  rw [hmain]
  decide

/-! ## C6: brute-force evaluator versus the spec's rule formulas. -/

attribute [ext] RuleAcc

open Classical in
theorem ruleStep_guard_char {α : Type} (selfPos : Vec3) (P : α → Prop) [DecidablePred P]
    (fp fv : α → Vec3) (x : α) (a : RuleAcc) :
    (if P x then ruleStep selfPos (fp x) (fv x) a else a)
    = { center := a.center + (if P x ∧ dist3 selfPos (fp x) < rule1Distance then fp x else 0),
        numRule1 := a.numRule1 + (if P x ∧ dist3 selfPos (fp x) < rule1Distance then 1 else 0),
        c := a.c + (if P x ∧ dist3 selfPos (fp x) < rule2Distance then -(fp x - selfPos) else 0),
        perceived_velocity := a.perceived_velocity
          + (if P x ∧ dist3 selfPos (fp x) < rule3Distance then fv x else 0),
        numRule3 := a.numRule3 + (if P x ∧ dist3 selfPos (fp x) < rule3Distance then 1 else 0) } := by
  by_cases hP : P x
  · rw [if_pos hP]
    unfold ruleStep
    by_cases h1 : dist3 selfPos (fp x) < rule1Distance <;>
      by_cases h2 : dist3 selfPos (fp x) < rule2Distance <;>
        by_cases h3 : dist3 selfPos (fp x) < rule3Distance <;>
          simp [hP, h1, h2, h3] <;> ext <;> simp [Vec3.sub_def, Vec3.add_def] <;> ring
  · rw [if_neg hP]
    simp [hP]

open Classical in
theorem foldl_ruleStep_char {α : Type} (selfPos : Vec3) (P : α → Prop) [DecidablePred P]
    (fp fv : α → Vec3) (l : List α) (a0 : RuleAcc) :
    l.foldl (fun acc q => if P q then ruleStep selfPos (fp q) (fv q) acc else acc) a0
      = { center := a0.center + (l.map (fun q =>
            if P q ∧ dist3 selfPos (fp q) < rule1Distance then fp q else 0)).sum,
          numRule1 := a0.numRule1 + (l.map (fun q =>
            if P q ∧ dist3 selfPos (fp q) < rule1Distance then 1 else 0)).sum,
          c := a0.c + (l.map (fun q =>
            if P q ∧ dist3 selfPos (fp q) < rule2Distance then -(fp q - selfPos) else 0)).sum,
          perceived_velocity := a0.perceived_velocity + (l.map (fun q =>
            if P q ∧ dist3 selfPos (fp q) < rule3Distance then fv q else 0)).sum,
          numRule3 := a0.numRule3 + (l.map (fun q =>
            if P q ∧ dist3 selfPos (fp q) < rule3Distance then 1 else 0)).sum } := by
  induction l generalizing a0 with
  | nil => ext <;> simp
  | cons x t ih =>
    rw [List.foldl_cons, ruleStep_guard_char selfPos P fp fv x a0, ih]
    ext <;> simp <;> ring

theorem list_range_map_sum {M : Type} [AddCommMonoid M] (f : ℕ → M) (n : ℕ) :
    ((List.range n).map f).sum = ∑ q in Finset.range n, f q := by
  induction n with
  | zero => simp
  | succ n ih =>
    rw [List.range_succ, List.map_append, List.sum_append, Finset.sum_range_succ, ih]
    simp

/- The new velocity as the spec describes it: cohesion (mean of neighbor
positions within `rule1Distance`, minus own position, times `rule1Scale`,
when at least one neighbor matched), separation (accumulated
`-(pos q - pos p)` within `rule2Distance`, times `rule2Scale`,
unconditionally), alignment (mean of neighbor velocities within
`rule3Distance` times `rule3Scale`, when at least one matched), each
excluding `p` itself, added to the current velocity, then clamped
direction-preserving to magnitude `maxSpeed`. -/
open Classical in
noncomputable def specNewVelocity (N : ℕ) (pos vel : ℕ → Vec3) (p : ℕ) : Vec3 :=
  let nbr1 := (Finset.range N).filter (fun q => q ≠ p ∧ dist3 (pos p) (pos q) < rule1Distance)
  let nbr2 := (Finset.range N).filter (fun q => q ≠ p ∧ dist3 (pos p) (pos q) < rule2Distance)
  let nbr3 := (Finset.range N).filter (fun q => q ≠ p ∧ dist3 (pos p) (pos q) < rule3Distance)
  let cohesion := if nbr1.card ≠ 0 then
    rule1Scale • ((nbr1.card : ℝ)⁻¹ • (∑ q in nbr1, pos q) - pos p) else 0
  let separation := rule2Scale • (∑ q in nbr2, -(pos q - pos p))
  let alignment := if nbr3.card ≠ 0 then
    rule3Scale • ((nbr3.card : ℝ)⁻¹ • (∑ q in nbr3, vel q)) else 0
  let v := vel p + (cohesion + separation + alignment)
  if vlen v > maxSpeed then (maxSpeed / vlen v) • v else v

open Classical in
theorem bruteForce_velocity_spec_aux (N : ℕ) (pos vel : ℕ → Vec3) (i : ℕ) :
    computeVelocityChange N i pos vel + vel i
      = vel i +
        ((if ((Finset.range N).filter
              (fun q => q ≠ i ∧ dist3 (pos i) (pos q) < rule1Distance)).card ≠ 0 then
            rule1Scale • ((((Finset.range N).filter
              (fun q => q ≠ i ∧ dist3 (pos i) (pos q) < rule1Distance)).card : ℝ)⁻¹
                • (∑ q in (Finset.range N).filter
                    (fun q => q ≠ i ∧ dist3 (pos i) (pos q) < rule1Distance), pos q)
              - pos i) else 0)
        + rule2Scale • (∑ q in (Finset.range N).filter
            (fun q => q ≠ i ∧ dist3 (pos i) (pos q) < rule2Distance), -(pos q - pos i))
        + (if ((Finset.range N).filter
              (fun q => q ≠ i ∧ dist3 (pos i) (pos q) < rule3Distance)).card ≠ 0 then
            rule3Scale • ((((Finset.range N).filter
              (fun q => q ≠ i ∧ dist3 (pos i) (pos q) < rule3Distance)).card : ℝ)⁻¹
                • (∑ q in (Finset.range N).filter
                    (fun q => q ≠ i ∧ dist3 (pos i) (pos q) < rule3Distance), vel q))
            else 0)) := by
  unfold computeVelocityChange
  dsimp only
  rw [foldl_ruleStep_char (pos i) (fun q => i ≠ q) pos vel]
  unfold finishRules
  dsimp only
  have hiff : ∀ (q : ℕ) (D : Prop), ((i ≠ q ∧ D) ↔ (q ≠ i ∧ D)) := by
    intro q D
    constructor <;> rintro ⟨h, hd⟩ <;> exact ⟨Ne.symm h, hd⟩
  have hcard : ∀ (r : ℝ), ((List.range N).map (fun q =>
        if i ≠ q ∧ dist3 (pos i) (pos q) < r then (1:ℕ) else 0)).sum
      = ((Finset.range N).filter (fun q => q ≠ i ∧ dist3 (pos i) (pos q) < r)).card := by
    intro r
    rw [list_range_map_sum, Finset.card_filter]
    exact Finset.sum_congr rfl (fun q _ => if_congr (hiff q _) rfl rfl)
  have hsum : ∀ (r : ℝ) (f : ℕ → Vec3), ((List.range N).map (fun q =>
        if i ≠ q ∧ dist3 (pos i) (pos q) < r then f q else 0)).sum
      = ∑ q in (Finset.range N).filter (fun q => q ≠ i ∧ dist3 (pos i) (pos q) < r), f q := by
    intro r f
    rw [list_range_map_sum, Finset.sum_filter]
    exact Finset.sum_congr rfl (fun q _ => if_congr (hiff q _) rfl rfl)
  rw [hcard rule1Distance, hcard rule3Distance, hsum rule1Distance pos,
    hsum rule2Distance (fun q => -(pos q - pos i)), hsum rule3Distance vel]
  simp only [RuleAcc.init, Nat.zero_add, zero_add]
  by_cases hc1 : ((Finset.range N).filter
      (fun q => q ≠ i ∧ dist3 (pos i) (pos q) < rule1Distance)).card ≠ 0
  · rw [if_pos hc1, if_pos hc1]
    by_cases hc3 : ((Finset.range N).filter
        (fun q => q ≠ i ∧ dist3 (pos i) (pos q) < rule3Distance)).card ≠ 0
    · rw [if_pos hc3, if_pos hc3]
      ext <;> simp <;> ring
    · rw [if_neg hc3, if_neg hc3]
      have hS3 : (∑ q in (Finset.range N).filter
          (fun q => q ≠ i ∧ dist3 (pos i) (pos q) < rule3Distance), vel q) = 0 := by
        rw [Finset.card_eq_zero.mp (not_not.mp hc3), Finset.sum_empty]
      rw [hS3]
      ext <;> simp <;> ring
  · rw [if_neg hc1, if_neg hc1]
    have hS1 : (∑ q in (Finset.range N).filter
        (fun q => q ≠ i ∧ dist3 (pos i) (pos q) < rule1Distance), pos q) = 0 := by
      rw [Finset.card_eq_zero.mp (not_not.mp hc1), Finset.sum_empty]
    rw [hS1]
    by_cases hc3 : ((Finset.range N).filter
        (fun q => q ≠ i ∧ dist3 (pos i) (pos q) < rule3Distance)).card ≠ 0
    · rw [if_pos hc3, if_pos hc3]
      ext <;> simp <;> ring
    · rw [if_neg hc3, if_neg hc3]
      have hS3 : (∑ q in (Finset.range N).filter
          (fun q => q ≠ i ∧ dist3 (pos i) (pos q) < rule3Distance), vel q) = 0 := by
        rw [Finset.card_eq_zero.mp (not_not.mp hc3), Finset.sum_empty]
      rw [hS3]
      ext <;> simp <;> ring

/-- C6: the brute-force evaluator's new velocity is exactly the current
velocity plus the three rule contributions of the spec (cohesion and
alignment as means when at least one neighbor matched, separation
unconditionally, each excluding the particle itself), clamped
direction-preserving to `maxSpeed`; hence every stored velocity has
magnitude at most `maxSpeed`. -/
theorem bruteForce_velocity_spec (N : ℕ) (pos vel : ℕ → Vec3) (i : ℕ) :
    bruteNewVel N pos vel i = specNewVelocity N pos vel i
    ∧ vlen (bruteNewVel N pos vel i) ≤ maxSpeed := by
  refine ⟨?_, clampSpeed_vlen_le _⟩
  unfold bruteNewVel specNewVelocity clampSpeed
  rw [bruteForce_velocity_spec_aux N pos vel i]

/-! ## Step-level facts: C1 and C9. -/

theorem updatePosPoint_zero {p : Vec3} (v : Vec3) (h : posInRange p) :
    updatePosPoint 0 p v = p := by
  obtain ⟨⟨h1, h2⟩, ⟨h3, h4⟩, ⟨h5, h6⟩⟩ := h
  unfold updatePosPoint
  dsimp only
  have hq : p + (0:ℝ) • v = p := by ext <;> simp
  rw [hq]
  ext
  · exact wrapCoord_id h1 h2
  · exact wrapCoord_id h3 h4
  · exact wrapCoord_id h5 h6

theorem getD_mem_of_lt {α : Type} {l : List α} {i : ℕ} (d : α) (h : i < l.length) :
    l.getD i d ∈ l := by
  have he : l.getD i d = l.get ⟨i, h⟩ := by
    simp [List.getD_eq_getElem?_getD, List.getElem?_eq_getElem h]
  rw [he]
  exact List.get_mem l i h

theorem floatToInt_intCast (z : ℤ) : floatToInt ((z : ℤ) : ℝ) = z := by
  unfold floatToInt
  split
  · exact Int.floor_intCast z
  · exact Int.ceil_intCast z

theorem sortedPairs_perm (s : SimState) : (sortedPairs s).Perm (statePairs s) :=
  List.perm_insertionSort keyLE _

theorem sortedSlots_length (s : SimState) : (sortedSlots s).length = s.N := by
  unfold sortedSlots
  rw [List.length_map, (sortedPairs_perm s).length_eq]
  unfold statePairs
  rw [List.length_map, List.length_range]

theorem sortedSlots_lt {s : SimState} {i : ℕ} (h : i < s.N) :
    (sortedSlots s).getD i 0 < s.N := by
  have hlen : i < (sortedSlots s).length := by rw [sortedSlots_length]; exact h
  have hmem : (sortedSlots s).getD i 0 ∈ sortedSlots s := getD_mem_of_lt 0 hlen
  unfold sortedSlots at hmem
  obtain ⟨pair, hpair, hp2⟩ := List.mem_map.mp hmem
  have hmem2 : pair ∈ statePairs s := (sortedPairs_perm s).subset hpair
  unfold statePairs at hmem2
  obtain ⟨j, hj, hj2⟩ := List.mem_map.mp hmem2
  unfold sortedSlots
  rw [← hp2, ← hj2]
  exact List.mem_range.mp hj

/-- C1 (amended): ScatteredGrid integrates positions with the velocities the
evaluator just wrote into `dev_vel2` (the buffer that becomes `vel1` after
the swap), CoherentGrid with those it wrote into `dev_vel1`, but the
BruteForce step's position kernel reads the pre-step `dev_vel1`, not the
newly computed buffer. -/
theorem step_position_velocity_sources (dt : ℝ) (env : OobEnv) (s : SimState) :
    ((stepScattered dt env s).pos = fun i => if i < s.N then
        updatePosPoint dt (s.pos i) ((stepScattered dt env s).vel1 i) else s.pos i)
    ∧ ((stepCoherent dt env s).pos = fun i => if i < s.N then
        updatePosPoint dt (if i < s.N then s.pos ((sortedSlots s).getD i 0) else s.pos_co i)
          ((stepCoherent dt env s).vel1 i)
        else (if i < s.N then s.pos ((sortedSlots s).getD i 0) else s.pos_co i))
    ∧ ((stepNaive dt s).pos = fun i => if i < s.N then
        updatePosPoint dt (s.pos i) (s.vel1 i) else s.pos i) :=
  ⟨rfl, rfl, rfl⟩

/-- The concrete two-boid configuration used to separate integration
sources: boids at the origin and at `(1,0,0)`, at rest. -/
noncomputable def cexStateC1 : SimState where
  N := 2
  pos := fun i => if i = 0 then ⟨0,0,0⟩ else ⟨1,0,0⟩
  vel1 := fun _ => 0
  vel2 := fun _ => 0
  pos_co := fun _ => 0
  vel_co := fun _ => 0
  startTbl := fun _ => -1
  endTbl := fun _ => -1

theorem cexC1_newVel :
    bruteNewVel 2 cexStateC1.pos cexStateC1.vel1 0 = ⟨-(9:ℝ)/100, 0, 0⟩ := by
  have hp0 : cexStateC1.pos 0 = ⟨0,0,0⟩ := rfl
  have hp1 : cexStateC1.pos 1 = ⟨1,0,0⟩ := rfl
  have hv : ∀ i, cexStateC1.vel1 i = 0 := fun _ => rfl
  have hd : dist3 (⟨0,0,0⟩ : Vec3) ⟨1,0,0⟩ = 1 := by
    unfold dist3 vlen
    simp only [Vec3.sub_x, Vec3.sub_y, Vec3.sub_z]
    norm_num
  unfold bruteNewVel computeVelocityChange
  dsimp only
  rw [show List.range 2 = [0, 1] from rfl, List.foldl_cons, List.foldl_cons, List.foldl_nil,
    if_neg (show ¬((0:ℕ) ≠ 0) by decide), if_pos (show (0:ℕ) ≠ 1 by decide)]
  rw [hp0, hp1, hv 1]
  unfold ruleStep
  dsimp only
  rw [hd]
  rw [if_pos (show (1:ℝ) < rule1Distance by unfold rule1Distance; norm_num),
    if_pos (show (1:ℝ) < rule2Distance by unfold rule2Distance; norm_num),
    if_pos (show (1:ℝ) < rule3Distance by unfold rule3Distance; norm_num)]
  unfold finishRules RuleAcc.init
  dsimp only
  rw [if_pos (show (0:ℕ) + 1 ≠ 0 by decide), if_pos (show (0:ℕ) + 1 ≠ 0 by decide)]
  rw [hv 0]
  have hval : rule1Scale • ((((0:ℕ) + 1 : ℕ) : ℝ)⁻¹ • ((0 : Vec3) + ⟨1,0,0⟩) - ⟨0,0,0⟩)
      + rule2Scale • ((0 : Vec3) - (⟨1,0,0⟩ - ⟨0,0,0⟩))
      + rule3Scale • ((((0:ℕ) + 1 : ℕ) : ℝ)⁻¹ • ((0 : Vec3) + 0)) + 0
      = (⟨-(9:ℝ)/100, 0, 0⟩ : Vec3) := by
    unfold rule1Scale rule2Scale rule3Scale
    ext <;> simp <;> norm_num
  rw [hval]
  have hlen : vlen ⟨-(9:ℝ)/100, 0, 0⟩ = 9/100 := by
    unfold vlen
    dsimp only
    rw [show (-(9:ℝ)/100) ^ 2 + 0 ^ 2 + 0 ^ 2 = (9/100) ^ 2 by norm_num,
      Real.sqrt_sq (by norm_num)]
  unfold clampSpeed
  rw [hlen, if_neg (show ¬((9:ℝ)/100 > maxSpeed) by unfold maxSpeed; norm_num)]

/-- C1 counterexample: in the BruteForce step the integrated position of
boid 0 differs from what integration with the newly computed velocity (the
post-step `vel1`) would give — the kernel read the stale `dev_vel1`. -/
theorem naive_integrates_stale_velocity :
    (stepNaive 1 cexStateC1).pos 0
      ≠ updatePosPoint 1 (cexStateC1.pos 0) ((stepNaive 1 cexStateC1).vel1 0) := by
  have hin : posInRange (⟨0,0,0⟩ : Vec3) := by
    unfold posInRange coordInRange scene_scale; norm_num
  have hlhs : (stepNaive 1 cexStateC1).pos 0 = ⟨0,0,0⟩ := by
    show (if 0 < cexStateC1.N then
      updatePosPoint 1 (cexStateC1.pos 0) (cexStateC1.vel1 0) else cexStateC1.pos 0) = _
    rw [if_pos (show 0 < cexStateC1.N by norm_num [cexStateC1])]
    show updatePosPoint 1 ⟨0,0,0⟩ 0 = _
    unfold updatePosPoint
    dsimp only
    have hq : (⟨0,0,0⟩ : Vec3) + (1:ℝ) • (0 : Vec3) = ⟨0,0,0⟩ := by ext <;> simp
    rw [hq]
    ext <;> dsimp only <;> rw [wrapCoord_id (by unfold scene_scale; norm_num)
      (by unfold scene_scale; norm_num)]
  have hrhs : updatePosPoint 1 (cexStateC1.pos 0) ((stepNaive 1 cexStateC1).vel1 0)
      = ⟨-(9:ℝ)/100, 0, 0⟩ := by
    have hv1 : (stepNaive 1 cexStateC1).vel1 0 = ⟨-(9:ℝ)/100, 0, 0⟩ := by
      show (if 0 < cexStateC1.N then bruteNewVel cexStateC1.N cexStateC1.pos cexStateC1.vel1 0
        else cexStateC1.vel2 0) = _
      rw [if_pos (show 0 < cexStateC1.N by norm_num [cexStateC1])]
      exact cexC1_newVel
    rw [hv1]
    show updatePosPoint 1 ⟨0,0,0⟩ _ = _
    unfold updatePosPoint
    dsimp only
    have hq : (⟨0,0,0⟩ : Vec3) + (1:ℝ) • (⟨-(9:ℝ)/100, 0, 0⟩ : Vec3)
        = ⟨-(9:ℝ)/100, 0, 0⟩ := by ext <;> simp
    rw [hq]
    ext <;> dsimp only <;> rw [wrapCoord_id (by unfold scene_scale; norm_num)
      (by unfold scene_scale; norm_num)]
  rw [hlhs, hrhs]
  intro h
  have hx := congrArg Vec3.x h
  simp at hx
  norm_num at hx

/-- All out-of-bounds reads return zeroed values in this environment. -/
noncomputable def env0 : OobEnv where
  oobSlot := fun _ => 0
  oobPos := fun _ => 0
  oobVel := fun _ => 0
  oobPosCo := fun _ => 0
  oobVelCo := fun _ => 0

/-- C9 (amended): with `dt = 0` and in-range positions, the BruteForce and
ScatteredGrid steps leave every slot of the position store unchanged, while
the CoherentGrid step leaves the positions unchanged only as a multiset:
slot `i` afterwards holds the position of the particle the sort placed at
sorted index `i`. -/
theorem step_dt_zero (env : OobEnv) (s : SimState)
    (hin : ∀ i, i < s.N → posInRange (s.pos i)) :
    ((stepNaive 0 s).pos = s.pos)
    ∧ ((stepScattered 0 env s).pos = s.pos)
    ∧ (∀ i, i < s.N → (stepCoherent 0 env s).pos i = s.pos ((sortedSlots s).getD i 0)) := by
  refine ⟨funext fun i => ?_, funext fun i => ?_, fun i hi => ?_⟩
  · show (if i < s.N then updatePosPoint 0 (s.pos i) (s.vel1 i) else s.pos i) = s.pos i
    by_cases h : i < s.N
    · rw [if_pos h, updatePosPoint_zero _ (hin i h)]
    · rw [if_neg h]
  · show (if i < s.N then updatePosPoint 0 (s.pos i) (scatteredVel2 s env i) else s.pos i)
      = s.pos i
    by_cases h : i < s.N
    · rw [if_pos h, updatePosPoint_zero _ (hin i h)]
    · rw [if_neg h]
  · show (if i < s.N then
        updatePosPoint 0
          (if i < s.N then s.pos ((sortedSlots s).getD i 0) else s.pos_co i)
          (if i < s.N then coherentThreadVel s env
            (fun k => if k < s.N then s.pos ((sortedSlots s).getD k 0) else s.pos_co k)
            (fun k => if k < s.N then s.vel1 ((sortedSlots s).getD k 0) else s.vel_co k) i
            else s.vel1 i)
        else (if i < s.N then s.pos ((sortedSlots s).getD i 0) else s.pos_co i))
      = s.pos ((sortedSlots s).getD i 0)
    rw [if_pos hi, if_pos hi]
    exact updatePosPoint_zero _ (hin _ (sortedSlots_lt hi))

theorem step_dt_zero_witness :
    (∀ i, i < cexStateC1.N → posInRange (cexStateC1.pos i))
    ∧ (stepNaive 0 cexStateC1).pos = cexStateC1.pos := by
  have hin : ∀ i, i < cexStateC1.N → posInRange (cexStateC1.pos i) := by
    intro i _
    show posInRange (if i = 0 then ⟨0,0,0⟩ else ⟨1,0,0⟩)
    by_cases h : i = 0 <;> [rw [if_pos h]; rw [if_neg h]] <;>
      unfold posInRange coordInRange scene_scale <;> norm_num
  exact ⟨hin, (step_dt_zero env0 cexStateC1 hin).1⟩

/-- Two boids in different grid cells, placed so that the ascending cell
sort reverses their order. -/
noncomputable def cexStateC9 : SimState where
  N := 2
  pos := fun i => if i = 0 then ⟨50,0,0⟩ else ⟨-50,0,0⟩
  vel1 := fun _ => 0
  vel2 := fun _ => 0
  pos_co := fun _ => 0
  vel_co := fun _ => 0
  startTbl := fun _ => -1
  endTbl := fun _ => -1

theorem cexC9_cells :
    particleCell ⟨50,0,0⟩ = 5582 ∧ particleCell ⟨-50,0,0⟩ = 5572 := by
  have h1 : gridInverseCellWidth • (-gridMinimum + ⟨50,0,0⟩)
      = ⟨((16:ℤ):ℝ), ((11:ℤ):ℝ), ((11:ℤ):ℝ)⟩ := by
    rw [gridInverseCellWidth_eq, gridMinimum_eq]
    ext <;> simp <;> norm_num
  have h2 : gridInverseCellWidth • (-gridMinimum + ⟨-50,0,0⟩)
      = ⟨((6:ℤ):ℝ), ((11:ℤ):ℝ), ((11:ℤ):ℝ)⟩ := by
    rw [gridInverseCellWidth_eq, gridMinimum_eq]
    ext <;> simp <;> norm_num
  constructor
  · unfold particleCell
    rw [h1]
    unfold truncVec
    dsimp only
    rw [floatToInt_intCast, floatToInt_intCast, gridSideCount_eq]
    decide
  · unfold particleCell
    rw [h2]
    unfold truncVec
    dsimp only
    rw [floatToInt_intCast, floatToInt_intCast, gridSideCount_eq]
    decide

theorem cexC9_slots : sortedSlots cexStateC9 = [1, 0] := by
  have hpairs : statePairs cexStateC9 = [(5582, 0), (5572, 1)] := by
    unfold statePairs
    rw [show List.range cexStateC9.N = [0, 1] from rfl]
    rw [List.map_cons, List.map_cons, List.map_nil]
    rw [show cexStateC9.pos 0 = ⟨50,0,0⟩ from rfl, show cexStateC9.pos 1 = ⟨-50,0,0⟩ from rfl]
    rw [cexC9_cells.1, cexC9_cells.2]
  unfold sortedSlots sortedPairs
  rw [hpairs]
  rw [show sortPairs [(5582, 0), (5572, 1)] = [(5572, 1), (5582, 0)] from by decide]
  rfl

/-- C9 counterexample: with `dt = 0` the CoherentGrid step does not leave
slot 0 of the position store unchanged — the sort-driven reorder moves the
other boid's position into it. -/
theorem coherent_dt_zero_permutes :
    (stepCoherent 0 env0 cexStateC9).pos 0 ≠ cexStateC9.pos 0 := by
  have hposC : (stepCoherent 0 env0 cexStateC9).pos 0 = ⟨-50,0,0⟩ := by
    show (if 0 < cexStateC9.N then
        updatePosPoint 0
          (if 0 < cexStateC9.N then
            cexStateC9.pos ((sortedSlots cexStateC9).getD 0 0) else cexStateC9.pos_co 0)
          (if 0 < cexStateC9.N then coherentThreadVel cexStateC9 env0
            (fun k => if k < cexStateC9.N then
              cexStateC9.pos ((sortedSlots cexStateC9).getD k 0) else cexStateC9.pos_co k)
            (fun k => if k < cexStateC9.N then
              cexStateC9.vel1 ((sortedSlots cexStateC9).getD k 0) else cexStateC9.vel_co k) 0
            else cexStateC9.vel1 0)
        else (if 0 < cexStateC9.N then
          cexStateC9.pos ((sortedSlots cexStateC9).getD 0 0) else cexStateC9.pos_co 0))
      = ⟨-50,0,0⟩
    rw [if_pos (show 0 < cexStateC9.N by norm_num [cexStateC9]),
      if_pos (show 0 < cexStateC9.N by norm_num [cexStateC9])]
    rw [cexC9_slots]
    show updatePosPoint 0 (cexStateC9.pos 1) _ = _
    rw [show cexStateC9.pos 1 = ⟨-50,0,0⟩ from rfl]
    exact updatePosPoint_zero _ (by unfold posInRange coordInRange scene_scale; norm_num)
  rw [hposC, show cexStateC9.pos 0 = ⟨50,0,0⟩ from rfl]
  intro h
  have hx := congrArg Vec3.x h
  simp at hx
  norm_num at hx

/-- C3 counterexample: a single boid (`N = 1`, sorted in-range cell array
`[0]`) gives a fully built boundary table whose partition sum is `0`, not
`N = 1`: the end table is never written for `N = 1`. -/
theorem boundary_partition_fails_for_single_boid :
    ([(0:ℤ)].Sorted (· ≤ ·))
    ∧ (∀ x ∈ [(0:ℤ)], 0 ≤ x ∧ x < gridCellCount)
    ∧ boundarySum gridCellCount
        (identifyCellStartEnd [0] (fun _ => -1) (fun _ => -1)).1
        (identifyCellStartEnd [0] (fun _ => -1) (fun _ => -1)).2 = 0
    ∧ (0:ℤ) ≠ (([(0:ℤ)] : List ℤ).length : ℤ) := by
  have hbuild : identifyCellStartEnd [0] (fun _ => -1) (fun _ => -1)
      = (writeTbl (fun _ => -1) 0 0, fun _ => -1) := rfl
  refine ⟨by decide, ?_, ?_, by norm_num⟩
  · intro x hx
    rw [gridCellCount_eq]
    simp at hx
    rw [hx]
    norm_num
  · rw [hbuild]
    unfold boundarySum
    apply Finset.sum_eq_zero
    intro c _
    unfold writeTbl
    by_cases h : c = 0
    · simp [h]
    · simp [h]

theorem boundarySum_eq_length_witness :
    (([(0:ℤ), 0, 1]).Sorted (· ≤ ·))
    ∧ 2 ≤ ([(0:ℤ), 0, 1]).length
    ∧ (∀ x ∈ [(0:ℤ), 0, 1], 0 ≤ x ∧ x < gridCellCount)
    ∧ boundarySum gridCellCount
        (identifyCellStartEnd [0, 0, 1] (fun _ => -1) (fun _ => -1)).1
        (identifyCellStartEnd [0, 0, 1] (fun _ => -1) (fun _ => -1)).2
      = (([(0:ℤ), 0, 1]).length : ℤ) := by
  have hs : ([(0:ℤ), 0, 1]).Sorted (· ≤ ·) := by decide
  have hN : 2 ≤ ([(0:ℤ), 0, 1]).length := by norm_num
  have hb : ∀ x ∈ [(0:ℤ), 0, 1], 0 ≤ x ∧ x < gridCellCount := by
    intro x hx
    rw [gridCellCount_eq]
    simp at hx
    rcases hx with rfl | rfl <;> norm_num
  exact ⟨hs, hN, hb, boundarySum_eq_length hs hN hb⟩

/-! ## C5: ScatteredGrid versus BruteForce. -/

theorem sortedCells_eq_map (s : SimState) :
    sortedCells s = (sortedPairs s).map Prod.fst := rfl

theorem sortedCells_sorted (s : SimState) : (sortedCells s).Sorted (· ≤ ·) := by
  have hp : (sortedPairs s).Sorted keyLE := List.sorted_insertionSort keyLE (statePairs s)
  rw [sortedCells_eq_map]
  exact List.Pairwise.map Prod.fst (fun a b hab => hab) hp

theorem sortedCells_length (s : SimState) : (sortedCells s).length = s.N := by
  rw [sortedCells_eq_map, List.length_map, (sortedPairs_perm s).length_eq]
  unfold statePairs
  rw [List.length_map, List.length_range]

theorem sortedSlots_perm_range (s : SimState) : (sortedSlots s).Perm (List.range s.N) := by
  have h1 : ((sortedPairs s).map Prod.snd).Perm ((statePairs s).map Prod.snd) :=
    (sortedPairs_perm s).map Prod.snd
  have h2 : (statePairs s).map Prod.snd = List.range s.N := by
    unfold statePairs
    rw [List.map_map]
    have hid : (Prod.snd ∘ fun i => (particleCell (s.pos i), i)) = (id : ℕ → ℕ) := rfl
    rw [hid, List.map_id]
  unfold sortedSlots
  rw [← h2]
  exact h1

theorem sortedSlots_nodup (s : SimState) : (sortedSlots s).Nodup :=
  (sortedSlots_perm_range s).nodup_iff.mpr (List.nodup_range s.N)

/-- Each sorted entry pairs the cell of the slot it carries: entry `j` of
the sorted cell array is the cell of particle `sortedSlots[j]`. -/
theorem sorted_pairing (s : SimState) {j : ℕ} (hj : j < s.N) :
    gAt (sortedCells s) j = particleCell (s.pos ((sortedSlots s).getD j 0)) := by
  have hlen : j < (sortedPairs s).length := by
    have := sortedCells_length s
    rw [sortedCells_eq_map, List.length_map] at this
    omega
  have hpair : (sortedPairs s).get ⟨j, hlen⟩ ∈ sortedPairs s := List.get_mem _ _ _
  have hmem : (sortedPairs s).get ⟨j, hlen⟩ ∈ statePairs s := (sortedPairs_perm s).subset hpair
  unfold statePairs at hmem
  obtain ⟨q, _, hq2⟩ := List.mem_map.mp hmem
  have hcell : gAt (sortedCells s) j = ((sortedPairs s).get ⟨j, hlen⟩).1 := by
    rw [sortedCells_eq_map]
    rw [gAt_eq_get (by rw [List.length_map]; exact hlen)]
    rw [List.get_map]
  have hslot : (sortedSlots s).getD j 0 = ((sortedPairs s).get ⟨j, hlen⟩).2 := by
    unfold sortedSlots
    have hlen2 : j < ((sortedPairs s).map Prod.snd).length := by
      rw [List.length_map]; exact hlen
    have he : ((sortedPairs s).map Prod.snd).getD j 0
        = ((sortedPairs s).map Prod.snd).get ⟨j, hlen2⟩ := by
      simp [List.getD_eq_getElem?_getD, List.getElem?_eq_getElem hlen2]
    rw [he, List.get_map]
  rw [hcell, hslot, ← hq2]

/-- Entries of the sorted slot array are particle indices below `N`. -/
theorem sortedSlots_getD_lt {s : SimState} {j : ℕ} (hj : j < s.N) :
    (sortedSlots s).getD j 0 < s.N := sortedSlots_lt hj

theorem sortedSlots_getD_inj {s : SimState} {j1 j2 : ℕ}
    (h1 : j1 < s.N) (h2 : j2 < s.N)
    (he : (sortedSlots s).getD j1 0 = (sortedSlots s).getD j2 0) : j1 = j2 := by
  have hl1 : j1 < (sortedSlots s).length := by rw [sortedSlots_length]; exact h1
  have hl2 : j2 < (sortedSlots s).length := by rw [sortedSlots_length]; exact h2
  have hg1 : (sortedSlots s).getD j1 0 = (sortedSlots s).get ⟨j1, hl1⟩ := by
    simp [List.getD_eq_getElem?_getD, List.getElem?_eq_getElem hl1]
  have hg2 : (sortedSlots s).getD j2 0 = (sortedSlots s).get ⟨j2, hl2⟩ := by
    simp [List.getD_eq_getElem?_getD, List.getElem?_eq_getElem hl2]
  rw [hg1, hg2] at he
  have := (sortedSlots_nodup s).get_inj_iff.mp he
  exact congrArg Fin.val this

/-- Every particle index below `N` occurs in the sorted slot array. -/
theorem mem_sortedSlots {s : SimState} {q : ℕ} (hq : q < s.N) :
    ∃ j, j < s.N ∧ (sortedSlots s).getD j 0 = q := by
  have hmem : q ∈ sortedSlots s :=
    (sortedSlots_perm_range s).mem_iff.mpr (List.mem_range.mpr hq)
  obtain ⟨⟨j, hj⟩, hget⟩ := List.mem_iff_get.mp hmem
  refine ⟨j, by rw [← sortedSlots_length s]; exact hj, ?_⟩
  rw [← hget]
  simp [List.getD_eq_getElem?_getD, List.getElem?_eq_getElem hj]

/-- The flattened list of sorted indices the scattered kernel loops over. -/
noncomputable def visitIdx (s : SimState) (li : ℕ) : List ℤ :=
  (calculateBoidNeighborCells (gridInverseCellWidth • (s.pos li - gridMinimum))
      gridSideCount).flatMap
    (fun n => if n < 0 then []
      else intRangeIncl ((buildTables s).1 n) ((buildTables s).2 n))

theorem foldl_flatMap {α β : Type} (f : β → α → β) (l : List ℤ) (r : ℤ → List α) (b0 : β) :
    l.foldl (fun acc n => (r n).foldl f acc) b0 = (l.flatMap r).foldl f b0 := by
  induction l generalizing b0 with
  | nil => rfl
  | cons a t ih =>
    rw [List.foldl_cons, List.flatMap_cons, List.foldl_append]
    exact ih _

theorem scatteredCompute_char (s : SimState) (env : OobEnv) (li : ℕ) :
    scatteredCompute s env li = clampSpeed (finishRules (s.pos li)
      ((visitIdx s li).foldl (fun acc j =>
        if (li : ℤ) ≠ readSlot s.N (sortedSlots s) env j then
          ruleStep (s.pos li)
            (readVecBuf s.N s.pos env.oobPos (readSlot s.N (sortedSlots s) env j))
            (readVecBuf s.N s.vel1 env.oobVel (readSlot s.N (sortedSlots s) env j)) acc
        else acc) RuleAcc.init) + s.vel1 li) := by
  unfold scatteredCompute visitIdx
  dsimp only
  congr 2
  rw [← foldl_flatMap _ _ (fun n => if n < 0 then []
    else intRangeIncl ((buildTables s).1 n) ((buildTables s).2 n))]
  have hfn : (fun (acc : RuleAcc) (n : ℤ) => if n < 0 then acc
        else (intRangeIncl ((buildTables s).1 n) ((buildTables s).2 n)).foldl
          (fun acc j =>
            if (li : ℤ) ≠ readSlot s.N (sortedSlots s) env j then
              ruleStep (s.pos li)
                (readVecBuf s.N s.pos env.oobPos (readSlot s.N (sortedSlots s) env j))
                (readVecBuf s.N s.vel1 env.oobVel (readSlot s.N (sortedSlots s) env j)) acc
            else acc) acc)
      = (fun (acc : RuleAcc) (n : ℤ) =>
        ((if n < 0 then [] else intRangeIncl ((buildTables s).1 n) ((buildTables s).2 n)).foldl
          (fun acc j =>
            if (li : ℤ) ≠ readSlot s.N (sortedSlots s) env j then
              ruleStep (s.pos li)
                (readVecBuf s.N s.pos env.oobPos (readSlot s.N (sortedSlots s) env j))
                (readVecBuf s.N s.vel1 env.oobVel (readSlot s.N (sortedSlots s) env j)) acc
            else acc) acc)) := by
    funext acc n
    by_cases hn : n < 0
    · rw [if_pos hn, if_pos hn]
      rfl
    · rw [if_neg hn, if_neg hn]
  rw [hfn]

theorem map_getD_range {α : Type} (l : List α) (d : α) :
    (List.range l.length).map (fun i => l.getD i d) = l := by
  apply List.ext_get
  · rw [List.length_map, List.length_range]
  · intro i h1 h2
    rw [List.get_map, List.get_range]
    simp [List.getD_eq_getElem?_getD, List.getElem?_eq_getElem h2]

theorem foldl_write_comp {β : Type} (g : ℕ → β) (keyOf : ℕ → ℕ) (idxs : List ℕ)
    (b0 : ℕ → β) (p : ℕ) :
    (idxs.foldl (fun buf index =>
        fun q => if q = keyOf index then g (keyOf index) else buf q) b0) p
      = if p ∈ idxs.map keyOf then g p else b0 p := by
  induction idxs generalizing b0 with
  | nil => simp
  | cons a t ih =>
    rw [List.foldl_cons, ih, List.map_cons]
    by_cases hmem : p ∈ t.map keyOf
    · rw [if_pos hmem, if_pos (List.mem_cons_of_mem _ hmem)]
    · rw [if_neg hmem]
      by_cases hpa : p = keyOf a
      · rw [if_pos hpa, hpa, if_pos (List.mem_cons_self _ _)]
      · rw [if_neg hpa, if_neg (show ¬ p ∈ keyOf a :: t.map keyOf from by
          intro hk
          rcases List.mem_cons.mp hk with h | h
          · exact hpa h
          · exact hmem h)]

/-- The scattered velocity kernel writes slot `p < N` with the value computed
for particle `p`: the write targets are a permutation of `0..N-1`, and the
value written at a slot only depends on that slot. -/
theorem scatteredVel2_apply (s : SimState) (env : OobEnv) {p : ℕ} (hp : p < s.N) :
    scatteredVel2 s env p = scatteredCompute s env p := by
  have h := foldl_write_comp (scatteredCompute s env)
    (fun index => (sortedSlots s).getD index 0) (List.range s.N) s.vel2 p
  have hgoal : scatteredVel2 s env p
      = if p ∈ (List.range s.N).map (fun index => (sortedSlots s).getD index 0)
        then scatteredCompute s env p else s.vel2 p := h
  have hlist : (List.range s.N).map (fun index => (sortedSlots s).getD index 0)
      = sortedSlots s := by
    rw [← sortedSlots_length s]
    exact map_getD_range (sortedSlots s) 0
  rw [hgoal, if_pos (by
    rw [hlist]
    exact (sortedSlots_perm_range s).mem_iff.mpr (List.mem_range.mpr hp))]

theorem mem_intRangeIncl {a b jz : ℤ} (h : jz ∈ intRangeIncl a b) : a ≤ jz ∧ jz ≤ b := by
  unfold intRangeIncl at h
  obtain ⟨k, hk, rfl⟩ := List.mem_map.mp h
  rw [List.mem_range] at hk
  omega

/-- In a sorted array, the occurrences of a value form the contiguous
closed interval between its first and last occurrence. -/
theorem sorted_occ_iff {g : List ℤ} (hs : g.Sorted (· ≤ ·)) {c : ℤ} {i j : ℕ}
    (hi : isFirstOcc g c i) (hj : isLastOcc g c j) {m : ℕ} (hm : m < g.length) :
    gAt g m = c ↔ (i ≤ m ∧ m ≤ j) := by
  constructor
  · intro hgm
    constructor
    · by_contra hlt
      push_neg at hlt
      exact hi.2.2 m hlt hgm
    · by_contra hlt
      push_neg at hlt
      exact hj.2.2 m hlt hm hgm
  · rintro ⟨h1, h2⟩
    have ha : gAt g i ≤ gAt g m := sorted_gAt_mono hs h1 hm
    have hb : gAt g m ≤ gAt g j := sorted_gAt_mono hs h2 hj.1
    rw [hi.2.1] at ha
    rw [hj.2.1] at hb
    exact le_antisymm hb ha

theorem map_flatMap_sum {M α : Type} [AddCommMonoid M] (F : α → M) (r : ℤ → List α)
    (l : List ℤ) :
    ((l.flatMap r).map F).sum = (l.map (fun n => ((r n).map F).sum)).sum := by
  induction l with
  | nil => rfl
  | cons a t ih =>
    rw [List.flatMap_cons, List.map_append, List.sum_append, List.map_cons,
      List.sum_cons, ih]

/-- The inclusive loop over the sorted-index range `[i, j]` of a cell `n`
visits, through the slot array, exactly the particles whose cell is `n`:
its sum over any per-particle quantity equals the corresponding sum over
the particles of cell `n`. -/
theorem percell_sum {M : Type} [AddCommMonoid M] (s : SimState)
    {n : ℤ} {i j : ℕ}
    (hi : isFirstOcc (sortedCells s) n i) (hj : isLastOcc (sortedCells s) n j)
    (F : ℕ → M) :
    ((intRangeIncl (i : ℤ) (j : ℤ)).map
        (fun jz => F ((sortedSlots s).getD jz.toNat 0))).sum
      = ∑ q in (Finset.range s.N).filter (fun q => particleCell (s.pos q) = n), F q := by
  have hij : i ≤ j := by
    by_contra hlt
    push_neg at hlt
    exact hj.2.2 i hlt hi.1 hi.2.1
  have hlen : (sortedCells s).length = s.N := sortedCells_length s
  have hjN : j < s.N := by rw [← hlen]; exact hj.1
  have hsort : (sortedCells s).Sorted (· ≤ ·) := sortedCells_sorted s
  unfold intRangeIncl
  rw [List.map_map]
  have hn2 : ((j : ℤ) + 1 - (i : ℤ)).toNat = j + 1 - i := by omega
  rw [hn2, list_range_map_sum]
  refine Finset.sum_bij (fun k _ => (sortedSlots s).getD (i + k) 0) ?_ ?_ ?_ ?_
  · intro k hk
    rw [Finset.mem_range] at hk
    have hik : i + k < s.N := by omega
    refine Finset.mem_filter.mpr ⟨Finset.mem_range.mpr (sortedSlots_getD_lt hik), ?_⟩
    have hcell := sorted_pairing s hik
    rw [← hcell]
    exact (sorted_occ_iff hsort hi hj (by rw [hlen]; exact hik)).mpr ⟨by omega, by omega⟩
  · intro k1 hk1 k2 hk2 he
    rw [Finset.mem_range] at hk1 hk2
    have h1 : i + k1 < s.N := by omega
    have h2 : i + k2 < s.N := by omega
    have := sortedSlots_getD_inj h1 h2 he
    omega
  · intro q hq
    obtain ⟨hqr, hqc⟩ := Finset.mem_filter.mp hq
    rw [Finset.mem_range] at hqr
    obtain ⟨jq, hjqN, hjq⟩ := mem_sortedSlots hqr
    have hcell : gAt (sortedCells s) jq = n := by
      rw [sorted_pairing s hjqN, hjq]
      exact hqc
    have hint := (sorted_occ_iff hsort hi hj (by rw [hlen]; exact hjqN)).mp hcell
    refine ⟨jq - i, Finset.mem_range.mpr (by omega), ?_⟩
    show (sortedSlots s).getD (i + (jq - i)) 0 = q
    rw [show i + (jq - i) = jq from by omega]
    exact hjq
  · intro k hk
    show F ((sortedSlots s).getD ((i : ℤ) + (k : ℤ)).toNat 0)
      = F ((sortedSlots s).getD (i + k) 0)
    rw [show ((i : ℤ) + (k : ℤ)).toNat = i + k from by omega]

/-- Because the y- and z-branches of the sign computation also write `x`,
the produced sign vector always has `y = z = 1` and `x ∈ \x7b1, -1\x7d`. -/
theorem neighborSigns_cases (sp : Vec3) :
    ((neighborSigns sp).x = 1 ∨ (neighborSigns sp).x = -1) ∧
      (neighborSigns sp).y = 1 ∧ (neighborSigns sp).z = 1 := by
  unfold neighborSigns
  dsimp only
  refine ⟨?_, rfl, rfl⟩
  split
  · exact Or.inr rfl
  · split
    · exact Or.inr rfl
    · split
      · exact Or.inr rfl
      · exact Or.inl rfl

/-- Two distinct lattice offsets never produce the same valid candidate
cell: a valid candidate determines its lattice coordinates. -/
theorem cand_ne {b d1 d2 : I3} (hne : d1 ≠ d2)
    (h0 : 0 ≤ candCell b d1 gridSideCount) :
    candCell b d1 gridSideCount ≠ candCell b d2 gridSideCount := by
  intro heq
  unfold candCell gridIndex3Dto1D at h0 heq
  rw [gridSideCount_eq] at h0 heq
  dsimp only at h0 heq
  by_cases hin1 : b.x + d1.x < 0 ∨ b.x + d1.x ≥ 22 ∨ b.y + d1.y < 0 ∨ b.y + d1.y ≥ 22 ∨
      b.z + d1.z < 0 ∨ b.z + d1.z ≥ 22
  · rw [if_pos hin1] at h0
    omega
  · rw [if_neg hin1] at h0 heq
    by_cases hin2 : b.x + d2.x < 0 ∨ b.x + d2.x ≥ 22 ∨ b.y + d2.y < 0 ∨ b.y + d2.y ≥ 22 ∨
        b.z + d2.z < 0 ∨ b.z + d2.z ≥ 22
    · rw [if_pos hin2] at heq
      omega
    · rw [if_neg hin2] at heq
      push_neg at hin1 hin2
      refine hne ?_
      ext <;> omega

/-- The candidate list has no repeated valid cell: every in-lattice cell
appears at most once (invalid entries may repeat as `-1`). -/
theorem neighborCells_pairwise (sp : Vec3) :
    (calculateBoidNeighborCells sp gridSideCount).Pairwise
      (fun a b => 0 ≤ a → a ≠ b) := by
  unfold calculateBoidNeighborCells
  dsimp only
  rw [List.pairwise_map]
  refine List.Pairwise.imp (fun hne h0 => cand_ne hne h0) ?_
  obtain ⟨hx, hy, hz⟩ := neighborSigns_cases sp
  rcases hx with hx | hx <;> rw [hx, hy, hz] <;> decide

/-- Summing per-cell particle sums over a candidate list with no repeated
valid entry collects exactly the particles whose cell is a valid entry of
the list. -/
theorem cellList_sum {M : Type} [AddCommMonoid M] (N : ℕ) (cellOf : ℕ → ℤ) (F : ℕ → M) :
    ∀ C : List ℤ, C.Pairwise (fun a b => 0 ≤ a → a ≠ b) →
    (C.map (fun n => if n < 0 then 0
        else ∑ q in (Finset.range N).filter (fun q => cellOf q = n), F q)).sum
      = ∑ q in (Finset.range N).filter (fun q => cellOf q ∈ C ∧ 0 ≤ cellOf q), F q := by
  intro C
  induction C with
  | nil =>
    intro _
    simp
  | cons a t ih =>
    intro hpw
    rw [List.map_cons, List.sum_cons, ih hpw.of_cons]
    by_cases ha : a < 0
    · rw [if_pos ha, zero_add]
      refine Finset.sum_congr ?_ (fun _ _ => rfl)
      apply Finset.filter_congr
      intro q _
      constructor
      · rintro ⟨hm, hnn⟩
        exact ⟨List.mem_cons_of_mem _ hm, hnn⟩
      · rintro ⟨hm, hnn⟩
        rcases List.mem_cons.mp hm with hm | hm
        · omega
        · exact ⟨hm, hnn⟩
    · rw [if_neg ha]
      push_neg at ha
      have hsplit : (Finset.range N).filter (fun q => cellOf q ∈ a :: t ∧ 0 ≤ cellOf q)
          = ((Finset.range N).filter (fun q => cellOf q = a))
            ∪ ((Finset.range N).filter (fun q => cellOf q ∈ t ∧ 0 ≤ cellOf q)) := by
        ext q
        simp only [Finset.mem_filter, Finset.mem_union, List.mem_cons]
        constructor
        · rintro ⟨hq, hm | hm, hnn⟩
          · exact Or.inl ⟨hq, hm⟩
          · exact Or.inr ⟨hq, hm, hnn⟩
        · rintro (⟨hq, hm⟩ | ⟨hq, hm, hnn⟩)
          · exact ⟨hq, Or.inl hm, hm ▸ ha⟩
          · exact ⟨hq, Or.inr hm, hnn⟩
      rw [hsplit, Finset.sum_union (by
        rw [Finset.disjoint_left]
        intro q hq1 hq2
        rw [Finset.mem_filter] at hq1 hq2
        have := List.rel_of_pairwise_cons hpw (hq1.2 ▸ hq2.2.1)
        exact this ha rfl)]

/-- The scattered kernel's flattened visit list, mapped through any
per-visit quantity that (a) factors through the visited particle for
in-bounds sorted indices and (b) vanishes on particles outside the
candidate window, sums to the corresponding sum over all `N` particles —
provided every valid candidate cell is populated (so its table entries
come from this step's boundary-table build, not from stale memory). -/
theorem visit_sum_eq {M : Type} [AddCommMonoid M] (s : SimState) (env : OobEnv)
    (hN : 2 ≤ s.N)
    (hpos0 : ∀ q, q < s.N → 0 ≤ particleCell (s.pos q))
    {li : ℕ}
    (hfull : ∀ n ∈ calculateBoidNeighborCells
        (gridInverseCellWidth • (s.pos li - gridMinimum)) gridSideCount,
        0 ≤ n → ∃ q, q < s.N ∧ particleCell (s.pos q) = n)
    (F : ℕ → M)
    (hvanish : ∀ q, q < s.N →
      particleCell (s.pos q) ∉ calculateBoidNeighborCells
        (gridInverseCellWidth • (s.pos li - gridMinimum)) gridSideCount → F q = 0)
    (Fterm : ℤ → M)
    (hterm : ∀ jz : ℤ, 0 ≤ jz → jz < (s.N : ℤ) →
      Fterm jz = F ((sortedSlots s).getD jz.toNat 0)) :
    ((visitIdx s li).map Fterm).sum = ∑ q in Finset.range s.N, F q := by
  have hlen : (sortedCells s).length = s.N := sortedCells_length s
  have hsort : (sortedCells s).Sorted (· ≤ ·) := sortedCells_sorted s
  unfold visitIdx
  rw [map_flatMap_sum]
  have hpercell : ∀ n ∈ calculateBoidNeighborCells
      (gridInverseCellWidth • (s.pos li - gridMinimum)) gridSideCount,
      ((if n < 0 then []
          else intRangeIncl ((buildTables s).1 n) ((buildTables s).2 n)).map Fterm).sum
        = if n < 0 then 0
          else ∑ q in (Finset.range s.N).filter
            (fun q => particleCell (s.pos q) = n), F q := by
    intro n hn
    by_cases hneg : n < 0
    · rw [if_pos hneg, if_pos hneg]
      rfl
    · rw [if_neg hneg, if_neg hneg]
      push_neg at hneg
      obtain ⟨q0, hq0N, hq0c⟩ := hfull n hn hneg
      have hmemc : n ∈ sortedCells s := by
        have h1 : (particleCell (s.pos q0), q0) ∈ statePairs s :=
          List.mem_map.mpr ⟨q0, List.mem_range.mpr hq0N, rfl⟩
        have h2 : particleCell (s.pos q0) ∈ (statePairs s).map Prod.fst :=
          List.mem_map.mpr ⟨_, h1, rfl⟩
        have h3 := ((sortedPairs_perm s).map Prod.fst).mem_iff.mpr h2
        rw [← hq0c]
        exact h3
      obtain ⟨k, hk, hkc⟩ := mem_gAt hmemc
      obtain ⟨i, hi⟩ := exists_firstOcc hk hkc
      obtain ⟨j, hj⟩ := exists_lastOcc hk hkc
      have hstart : (buildTables s).1 n = (i : ℤ) := identify_start_first hsort hi
      have hend : (buildTables s).2 n = (j : ℤ) :=
        identify_end_last hsort (by rw [hlen]; exact hN) hj
      rw [hstart, hend]
      have hjN : j < s.N := by rw [← hlen]; exact hj.1
      have hmapc : (intRangeIncl (i : ℤ) (j : ℤ)).map Fterm
          = (intRangeIncl (i : ℤ) (j : ℤ)).map
              (fun jz => F ((sortedSlots s).getD jz.toNat 0)) := by
        apply List.map_congr_left
        intro jz hjz
        obtain ⟨h1, h2⟩ := mem_intRangeIncl hjz
        exact hterm jz (by omega) (by omega)
      rw [hmapc]
      exact percell_sum s hi hj F
  rw [List.map_congr_left hpercell]
  rw [cellList_sum s.N (fun q => particleCell (s.pos q)) F _
    (neighborCells_pairwise (gridInverseCellWidth • (s.pos li - gridMinimum)))]
  refine Finset.sum_subset (Finset.filter_subset _ _) ?_
  intro q hq hqf
  rw [Finset.mem_range] at hq
  rw [Finset.mem_filter] at hqf
  push_neg at hqf
  refine hvanish q hq (fun hmem => ?_)
  have h1 := hqf (Finset.mem_range.mpr hq) hmem
  have h2 := hpos0 q hq
  omega

open Classical in
/-- C5 (amended): under the claim's containment hypothesis (every true
neighbor lies in the candidate window) **and** the additional hypotheses
that `N ≥ 2`, that every particle's cell index is nonnegative, and that
every valid candidate cell of every particle is populated by at least one
particle — without which the scattered kernel can read stale boundary-table
entries, see the counterexample — the ScatteredGrid kernel computes exactly
the BruteForce velocity for every particle. -/
theorem scattered_matches_bruteforce (s : SimState) (env : OobEnv)
    (hN : 2 ≤ s.N)
    (hpos0 : ∀ q, q < s.N → 0 ≤ particleCell (s.pos q))
    (hcont : ∀ p, p < s.N → ∀ q, q < s.N → p ≠ q →
      dist3 (s.pos p) (s.pos q) < max (max rule1Distance rule2Distance) rule3Distance →
      particleCell (s.pos q) ∈ calculateBoidNeighborCells
        (gridInverseCellWidth • (s.pos p - gridMinimum)) gridSideCount)
    (hfull : ∀ p, p < s.N → ∀ n ∈ calculateBoidNeighborCells
        (gridInverseCellWidth • (s.pos p - gridMinimum)) gridSideCount,
        0 ≤ n → ∃ q, q < s.N ∧ particleCell (s.pos q) = n) :
    ∀ p, p < s.N → scatteredVel2 s env p = bruteNewVel s.N s.pos s.vel1 p := by
  intro p hp
  rw [scatteredVel2_apply s env hp, scatteredCompute_char s env p]
  unfold bruteNewVel computeVelocityChange
  dsimp only
  rw [foldl_ruleStep_char (s.pos p)
    (fun j => (p : ℤ) ≠ readSlot s.N (sortedSlots s) env j)
    (fun j => readVecBuf s.N s.pos env.oobPos (readSlot s.N (sortedSlots s) env j))
    (fun j => readVecBuf s.N s.vel1 env.oobVel (readSlot s.N (sortedSlots s) env j))
    (visitIdx s p) RuleAcc.init]
  rw [foldl_ruleStep_char (s.pos p) (fun q => p ≠ q) s.pos s.vel1 (List.range s.N)
    RuleAcc.init]
  have hread : ∀ jz : ℤ, 0 ≤ jz → jz < (s.N : ℤ) →
      readSlot s.N (sortedSlots s) env jz = ((sortedSlots s).getD jz.toNat 0 : ℤ) ∧
      (sortedSlots s).getD jz.toNat 0 < s.N := by
    intro jz h0 hN'
    constructor
    · unfold readSlot
      rw [if_pos ⟨h0, hN'⟩]
    · exact sortedSlots_getD_lt (by omega)
  have hbufread : ∀ (buf : ℕ → Vec3) (oob : ℤ → Vec3) (q' : ℕ), q' < s.N →
      readVecBuf s.N buf oob ((q' : ℕ) : ℤ) = buf q' := by
    intro buf oob q' hq'
    unfold readVecBuf
    rw [if_pos ⟨Int.natCast_nonneg q', by exact_mod_cast hq'⟩]
    simp
  have hvanG : ∀ {M : Type} [Zero M] (val : ℕ → M) (r : ℝ),
      r ≤ max (max rule1Distance rule2Distance) rule3Distance →
      ∀ q, q < s.N →
      particleCell (s.pos q) ∉ calculateBoidNeighborCells
        (gridInverseCellWidth • (s.pos p - gridMinimum)) gridSideCount →
      (if p ≠ q ∧ dist3 (s.pos p) (s.pos q) < r then val q else 0) = 0 := by
    intro M _ val r hr q hq hmem
    rw [if_neg]
    rintro ⟨hne, hdist⟩
    exact hmem (hcont p hp q hq hne (lt_of_lt_of_le hdist hr))
  have hr1 : rule1Distance ≤ max (max rule1Distance rule2Distance) rule3Distance :=
    le_max_of_le_left (le_max_left _ _)
  have hr2 : rule2Distance ≤ max (max rule1Distance rule2Distance) rule3Distance :=
    le_max_of_le_left (le_max_right _ _)
  have hr3 : rule3Distance ≤ max (max rule1Distance rule2Distance) rule3Distance :=
    le_max_right _ _
  have h1 : ((visitIdx s p).map (fun j =>
      if (p : ℤ) ≠ readSlot s.N (sortedSlots s) env j ∧
          dist3 (s.pos p) (readVecBuf s.N s.pos env.oobPos
            (readSlot s.N (sortedSlots s) env j)) < rule1Distance
        then readVecBuf s.N s.pos env.oobPos (readSlot s.N (sortedSlots s) env j)
        else 0)).sum
      = ((List.range s.N).map (fun q =>
          if p ≠ q ∧ dist3 (s.pos p) (s.pos q) < rule1Distance
            then s.pos q else 0)).sum := by
    rw [list_range_map_sum]
    refine visit_sum_eq s env hN hpos0 (hfull p hp) _ (hvanG _ rule1Distance hr1) _ ?_
    intro jz h0 hN'
    obtain ⟨hrs, hq'⟩ := hread jz h0 hN'
    rw [hrs, hbufread s.pos env.oobPos _ hq']
    exact if_congr (and_congr (not_congr Nat.cast_inj) Iff.rfl) rfl rfl
  have h2 : ((visitIdx s p).map (fun j =>
      if (p : ℤ) ≠ readSlot s.N (sortedSlots s) env j ∧
          dist3 (s.pos p) (readVecBuf s.N s.pos env.oobPos
            (readSlot s.N (sortedSlots s) env j)) < rule1Distance
        then (1 : ℕ) else 0)).sum
      = ((List.range s.N).map (fun q =>
          if p ≠ q ∧ dist3 (s.pos p) (s.pos q) < rule1Distance
            then (1 : ℕ) else 0)).sum := by
    rw [list_range_map_sum]
    refine visit_sum_eq s env hN hpos0 (hfull p hp) _ (hvanG _ rule1Distance hr1) _ ?_
    intro jz h0 hN'
    obtain ⟨hrs, hq'⟩ := hread jz h0 hN'
    rw [hrs, hbufread s.pos env.oobPos _ hq']
    exact if_congr (and_congr (not_congr Nat.cast_inj) Iff.rfl) rfl rfl
  have h3 : ((visitIdx s p).map (fun j =>
      if (p : ℤ) ≠ readSlot s.N (sortedSlots s) env j ∧
          dist3 (s.pos p) (readVecBuf s.N s.pos env.oobPos
            (readSlot s.N (sortedSlots s) env j)) < rule2Distance
        then -(readVecBuf s.N s.pos env.oobPos (readSlot s.N (sortedSlots s) env j)
          - s.pos p)
        else 0)).sum
      = ((List.range s.N).map (fun q =>
          if p ≠ q ∧ dist3 (s.pos p) (s.pos q) < rule2Distance
            then -(s.pos q - s.pos p) else 0)).sum := by
    rw [list_range_map_sum]
    refine visit_sum_eq s env hN hpos0 (hfull p hp) _ (hvanG _ rule2Distance hr2) _ ?_
    intro jz h0 hN'
    obtain ⟨hrs, hq'⟩ := hread jz h0 hN'
    rw [hrs, hbufread s.pos env.oobPos _ hq']
    exact if_congr (and_congr (not_congr Nat.cast_inj) Iff.rfl) rfl rfl
  have h4 : ((visitIdx s p).map (fun j =>
      if (p : ℤ) ≠ readSlot s.N (sortedSlots s) env j ∧
          dist3 (s.pos p) (readVecBuf s.N s.pos env.oobPos
            (readSlot s.N (sortedSlots s) env j)) < rule3Distance
        then readVecBuf s.N s.vel1 env.oobVel (readSlot s.N (sortedSlots s) env j)
        else 0)).sum
      = ((List.range s.N).map (fun q =>
          if p ≠ q ∧ dist3 (s.pos p) (s.pos q) < rule3Distance
            then s.vel1 q else 0)).sum := by
    rw [list_range_map_sum]
    refine visit_sum_eq s env hN hpos0 (hfull p hp) _ (hvanG _ rule3Distance hr3) _ ?_
    intro jz h0 hN'
    obtain ⟨hrs, hq'⟩ := hread jz h0 hN'
    rw [hrs, hbufread s.pos env.oobPos _ hq', hbufread s.vel1 env.oobVel _ hq']
    exact if_congr (and_congr (not_congr Nat.cast_inj) Iff.rfl) rfl rfl
  have h5 : ((visitIdx s p).map (fun j =>
      if (p : ℤ) ≠ readSlot s.N (sortedSlots s) env j ∧
          dist3 (s.pos p) (readVecBuf s.N s.pos env.oobPos
            (readSlot s.N (sortedSlots s) env j)) < rule3Distance
        then (1 : ℕ) else 0)).sum
      = ((List.range s.N).map (fun q =>
          if p ≠ q ∧ dist3 (s.pos p) (s.pos q) < rule3Distance
            then (1 : ℕ) else 0)).sum := by
    rw [list_range_map_sum]
    refine visit_sum_eq s env hN hpos0 (hfull p hp) _ (hvanG _ rule3Distance hr3) _ ?_
    intro jz h0 hN'
    obtain ⟨hrs, hq'⟩ := hread jz h0 hN'
    rw [hrs, hbufread s.pos env.oobPos _ hq']
    exact if_congr (and_congr (not_congr Nat.cast_inj) Iff.rfl) rfl rfl
  rw [h1, h2, h3, h4, h5]

/-- Witness state for C5: two boids at exactly-integer cell-space
coordinates, ten apart (no rule applies), every valid candidate cell
populated. -/
noncomputable def wStateC5 : SimState where
  N := 2
  pos := fun i => if i = 0 then ⟨-110, 100, 100⟩ else ⟨-110, 100, 90⟩
  vel1 := fun _ => 0
  vel2 := fun _ => 0
  pos_co := fun _ => 0
  vel_co := fun _ => 0
  startTbl := fun _ => -1
  endTbl := fun _ => -1

theorem wC5_trunc0 : truncVec ⟨((0:ℤ):ℝ), ((21:ℤ):ℝ), ((21:ℤ):ℝ)⟩ = ⟨0, 21, 21⟩ := by
  unfold truncVec
  dsimp only
  rw [floatToInt_intCast, floatToInt_intCast]

theorem wC5_trunc1 : truncVec ⟨((0:ℤ):ℝ), ((21:ℤ):ℝ), ((20:ℤ):ℝ)⟩ = ⟨0, 21, 20⟩ := by
  unfold truncVec
  dsimp only
  rw [floatToInt_intCast, floatToInt_intCast, floatToInt_intCast]

theorem wC5_signs0 : neighborSigns ⟨((0:ℤ):ℝ), ((21:ℤ):ℝ), ((21:ℤ):ℝ)⟩ = ⟨-1, 1, 1⟩ := by
  unfold neighborSigns
  rw [wC5_trunc0]
  dsimp only
  simp only [Vec3.sub_x, Vec3.sub_y, Vec3.sub_z]
  rw [if_pos (show ((21:ℤ):ℝ) - ((21:ℤ):ℝ) < 1/2 by norm_num)]

theorem wC5_signs1 : neighborSigns ⟨((0:ℤ):ℝ), ((21:ℤ):ℝ), ((20:ℤ):ℝ)⟩ = ⟨-1, 1, 1⟩ := by
  unfold neighborSigns
  rw [wC5_trunc1]
  dsimp only
  simp only [Vec3.sub_x, Vec3.sub_y, Vec3.sub_z]
  rw [if_pos (show ((20:ℤ):ℝ) - ((20:ℤ):ℝ) < 1/2 by norm_num)]

theorem wC5_scale0 : gridInverseCellWidth • (wStateC5.pos 0 - gridMinimum)
    = ⟨((0:ℤ):ℝ), ((21:ℤ):ℝ), ((21:ℤ):ℝ)⟩ := by
  rw [show wStateC5.pos 0 = ⟨-110, 100, 100⟩ from rfl,
    gridInverseCellWidth_eq, gridMinimum_eq]
  ext <;> simp <;> norm_num

theorem wC5_scale1 : gridInverseCellWidth • (wStateC5.pos 1 - gridMinimum)
    = ⟨((0:ℤ):ℝ), ((21:ℤ):ℝ), ((20:ℤ):ℝ)⟩ := by
  rw [show wStateC5.pos 1 = ⟨-110, 100, 90⟩ from rfl,
    gridInverseCellWidth_eq, gridMinimum_eq]
  ext <;> simp <;> norm_num

theorem wC5_cand0 : calculateBoidNeighborCells
    (gridInverseCellWidth • (wStateC5.pos 0 - gridMinimum)) gridSideCount
    = [10626, -1, -1, -1, -1, -1, -1, -1] := by
  rw [wC5_scale0]
  unfold calculateBoidNeighborCells
  rw [wC5_signs0, wC5_trunc0, gridSideCount_eq]
  decide

theorem wC5_cand1 : calculateBoidNeighborCells
    (gridInverseCellWidth • (wStateC5.pos 1 - gridMinimum)) gridSideCount
    = [10142, -1, -1, 10626, -1, -1, -1, -1] := by
  rw [wC5_scale1]
  unfold calculateBoidNeighborCells
  rw [wC5_signs1, wC5_trunc1, gridSideCount_eq]
  decide

theorem wC5_cell0 : particleCell (wStateC5.pos 0) = 10626 := by
  have hsc : gridInverseCellWidth • (-gridMinimum + wStateC5.pos 0)
      = ⟨((0:ℤ):ℝ), ((21:ℤ):ℝ), ((21:ℤ):ℝ)⟩ := by
    rw [show wStateC5.pos 0 = ⟨-110, 100, 100⟩ from rfl,
      gridInverseCellWidth_eq, gridMinimum_eq]
    ext <;> simp <;> norm_num
  unfold particleCell
  rw [hsc, wC5_trunc0]
  dsimp only
  rw [gridSideCount_eq]
  decide

theorem wC5_cell1 : particleCell (wStateC5.pos 1) = 10142 := by
  have hsc : gridInverseCellWidth • (-gridMinimum + wStateC5.pos 1)
      = ⟨((0:ℤ):ℝ), ((21:ℤ):ℝ), ((20:ℤ):ℝ)⟩ := by
    rw [show wStateC5.pos 1 = ⟨-110, 100, 90⟩ from rfl,
      gridInverseCellWidth_eq, gridMinimum_eq]
    ext <;> simp <;> norm_num
  unfold particleCell
  rw [hsc, wC5_trunc1]
  dsimp only
  rw [gridSideCount_eq]
  decide

theorem wC5_max : max (max rule1Distance rule2Distance) rule3Distance = 5 := by
  unfold rule1Distance rule2Distance rule3Distance
  rw [max_eq_left (by norm_num : (3:ℝ) ≤ 5), max_self]

/-- Witness for C5: the amended equivalence theorem applied to the concrete
two-boid state, all hypotheses discharged by computation. -/
theorem scattered_matches_bruteforce_witness :
    scatteredVel2 wStateC5 env0 0 = bruteNewVel wStateC5.N wStateC5.pos wStateC5.vel1 0 := by
  have hpos0 : ∀ q, q < wStateC5.N → 0 ≤ particleCell (wStateC5.pos q) := by
    intro q hq
    have : q = 0 ∨ q = 1 := by
      rw [show wStateC5.N = 2 from rfl] at hq
      omega
    rcases this with rfl | rfl
    · rw [wC5_cell0]; norm_num
    · rw [wC5_cell1]; norm_num
  have hcont : ∀ p, p < wStateC5.N → ∀ q, q < wStateC5.N → p ≠ q →
      dist3 (wStateC5.pos p) (wStateC5.pos q)
        < max (max rule1Distance rule2Distance) rule3Distance →
      particleCell (wStateC5.pos q) ∈ calculateBoidNeighborCells
        (gridInverseCellWidth • (wStateC5.pos p - gridMinimum)) gridSideCount := by
    have hd01 : dist3 (wStateC5.pos 0) (wStateC5.pos 1) = 10 := by
      rw [show wStateC5.pos 0 = ⟨-110, 100, 100⟩ from rfl,
        show wStateC5.pos 1 = ⟨-110, 100, 90⟩ from rfl]
      unfold dist3 vlen
      simp only [Vec3.sub_x, Vec3.sub_y, Vec3.sub_z]
      rw [show ((-110:ℝ) - -110) ^ 2 + ((100:ℝ) - 100) ^ 2 + ((100:ℝ) - 90) ^ 2
        = 10 ^ 2 by norm_num]
      exact Real.sqrt_sq (by norm_num)
    have hd10 : dist3 (wStateC5.pos 1) (wStateC5.pos 0) = 10 := by
      rw [show wStateC5.pos 0 = ⟨-110, 100, 100⟩ from rfl,
        show wStateC5.pos 1 = ⟨-110, 100, 90⟩ from rfl]
      unfold dist3 vlen
      simp only [Vec3.sub_x, Vec3.sub_y, Vec3.sub_z]
      rw [show ((-110:ℝ) - -110) ^ 2 + ((100:ℝ) - 100) ^ 2 + ((90:ℝ) - 100) ^ 2
        = 10 ^ 2 by norm_num]
      exact Real.sqrt_sq (by norm_num)
    intro p hp q hq hne hdist
    rw [wC5_max] at hdist
    exfalso
    have hp2 : p = 0 ∨ p = 1 := by
      rw [show wStateC5.N = 2 from rfl] at hp
      omega
    have hq2 : q = 0 ∨ q = 1 := by
      rw [show wStateC5.N = 2 from rfl] at hq
      omega
    rcases hp2 with rfl | rfl <;> rcases hq2 with rfl | rfl
    · exact hne rfl
    · rw [hd01] at hdist; norm_num at hdist
    · rw [hd10] at hdist; norm_num at hdist
    · exact hne rfl
  have hfull : ∀ p, p < wStateC5.N → ∀ n ∈ calculateBoidNeighborCells
      (gridInverseCellWidth • (wStateC5.pos p - gridMinimum)) gridSideCount,
      0 ≤ n → ∃ q, q < wStateC5.N ∧ particleCell (wStateC5.pos q) = n := by
    intro p hp n hn hn0
    have hp2 : p = 0 ∨ p = 1 := by
      rw [show wStateC5.N = 2 from rfl] at hp
      omega
    rcases hp2 with rfl | rfl
    · rw [wC5_cand0] at hn
      simp only [List.mem_cons, List.not_mem_nil, or_false] at hn
      rcases hn with rfl | rfl | rfl | rfl | rfl | rfl | rfl | rfl
      · exact ⟨0, by decide, wC5_cell0⟩
      all_goals exact absurd hn0 (by norm_num)
    · rw [wC5_cand1] at hn
      simp only [List.mem_cons, List.not_mem_nil, or_false] at hn
      rcases hn with rfl | rfl | rfl | rfl | rfl | rfl | rfl | rfl
      · exact ⟨1, by decide, wC5_cell1⟩
      · exact absurd hn0 (by norm_num)
      · exact absurd hn0 (by norm_num)
      · exact ⟨0, by decide, wC5_cell0⟩
      all_goals exact absurd hn0 (by norm_num)
  exact scattered_matches_bruteforce wStateC5 env0 (by decide) hpos0 hcont hfull 0 (by decide)

/-- Counterexample state for C5: two boids one unit apart in the same cell
`5577`, with stale boundary tables holding `1` everywhere.  The per-step
reset only clears entries `0` and `1` (`numObjects = 2`), so the seven
unpopulated candidate cells keep `start = end = 1` and each contributes an
extra visit to sorted index `1`. -/
noncomputable def cexStateC5 : SimState where
  N := 2
  pos := fun i => if i = 0 then ⟨0, 0, 0⟩ else ⟨1, 0, 0⟩
  vel1 := fun _ => 0
  vel2 := fun _ => 0
  pos_co := fun _ => 0
  vel_co := fun _ => 0
  startTbl := fun _ => 1
  endTbl := fun _ => 1

theorem floatToInt_111tenths : floatToInt ((111:ℝ)/10) = 11 := by
  unfold floatToInt
  rw [if_pos (by norm_num)]
  rw [Int.floor_eq_iff]
  constructor <;> norm_num

theorem cexC5_trunc11 : truncVec ⟨((11:ℤ):ℝ), ((11:ℤ):ℝ), ((11:ℤ):ℝ)⟩ = ⟨11, 11, 11⟩ := by
  unfold truncVec
  dsimp only
  rw [floatToInt_intCast]

theorem cexC5_trunc1 : truncVec ⟨(111:ℝ)/10, ((11:ℤ):ℝ), ((11:ℤ):ℝ)⟩ = ⟨11, 11, 11⟩ := by
  unfold truncVec
  dsimp only
  rw [floatToInt_111tenths, floatToInt_intCast]

theorem cexC5_cell0 : particleCell (cexStateC5.pos 0) = 5577 := by
  have hsc : gridInverseCellWidth • (-gridMinimum + cexStateC5.pos 0)
      = ⟨((11:ℤ):ℝ), ((11:ℤ):ℝ), ((11:ℤ):ℝ)⟩ := by
    rw [show cexStateC5.pos 0 = ⟨0, 0, 0⟩ from rfl,
      gridInverseCellWidth_eq, gridMinimum_eq]
    ext <;> simp <;> norm_num
  unfold particleCell
  rw [hsc, cexC5_trunc11]
  dsimp only
  rw [gridSideCount_eq]
  decide

theorem cexC5_cell1 : particleCell (cexStateC5.pos 1) = 5577 := by
  have hsc : gridInverseCellWidth • (-gridMinimum + cexStateC5.pos 1)
      = ⟨(111:ℝ)/10, ((11:ℤ):ℝ), ((11:ℤ):ℝ)⟩ := by
    rw [show cexStateC5.pos 1 = ⟨1, 0, 0⟩ from rfl,
      gridInverseCellWidth_eq, gridMinimum_eq]
    ext <;> simp <;> norm_num
  unfold particleCell
  rw [hsc, cexC5_trunc1]
  dsimp only
  rw [gridSideCount_eq]
  decide

theorem cexC5_cells : sortedCells cexStateC5 = [5577, 5577] := by
  have hpairs : statePairs cexStateC5 = [(5577, 0), (5577, 1)] := by
    unfold statePairs
    rw [show List.range cexStateC5.N = [0, 1] from rfl]
    rw [List.map_cons, List.map_cons, List.map_nil]
    rw [cexC5_cell0, cexC5_cell1]
  unfold sortedCells sortedPairs
  rw [hpairs]
  rw [show sortPairs [(5577, 0), (5577, 1)] = [(5577, 0), (5577, 1)] from by decide]
  rfl

theorem cexC5_slots : sortedSlots cexStateC5 = [0, 1] := by
  have hpairs : statePairs cexStateC5 = [(5577, 0), (5577, 1)] := by
    unfold statePairs
    rw [show List.range cexStateC5.N = [0, 1] from rfl]
    rw [List.map_cons, List.map_cons, List.map_nil]
    rw [cexC5_cell0, cexC5_cell1]
  unfold sortedSlots sortedPairs
  rw [hpairs]
  rw [show sortPairs [(5577, 0), (5577, 1)] = [(5577, 0), (5577, 1)] from by decide]
  rfl

theorem cexC5_signs : neighborSigns ⟨((11:ℤ):ℝ), ((11:ℤ):ℝ), ((11:ℤ):ℝ)⟩ = ⟨-1, 1, 1⟩ := by
  unfold neighborSigns
  rw [cexC5_trunc11]
  dsimp only
  simp only [Vec3.sub_x, Vec3.sub_y, Vec3.sub_z]
  rw [if_pos (show ((11:ℤ):ℝ) - ((11:ℤ):ℝ) < 1/2 by norm_num)]

theorem cexC5_scale0 : gridInverseCellWidth • (cexStateC5.pos 0 - gridMinimum)
    = ⟨((11:ℤ):ℝ), ((11:ℤ):ℝ), ((11:ℤ):ℝ)⟩ := by
  rw [show cexStateC5.pos 0 = ⟨0, 0, 0⟩ from rfl,
    gridInverseCellWidth_eq, gridMinimum_eq]
  ext <;> simp <;> norm_num

theorem cexC5_scale1 : gridInverseCellWidth • (cexStateC5.pos 1 - gridMinimum)
    = ⟨(111:ℝ)/10, ((11:ℤ):ℝ), ((11:ℤ):ℝ)⟩ := by
  rw [show cexStateC5.pos 1 = ⟨1, 0, 0⟩ from rfl,
    gridInverseCellWidth_eq, gridMinimum_eq]
  ext <;> simp <;> norm_num

theorem cexC5_cand0 : calculateBoidNeighborCells
    (gridInverseCellWidth • (cexStateC5.pos 0 - gridMinimum)) gridSideCount
    = [5577, 5576, 5599, 6061, 5598, 6083, 6060, 6082] := by
  rw [cexC5_scale0]
  unfold calculateBoidNeighborCells
  rw [cexC5_signs, cexC5_trunc11, gridSideCount_eq]
  decide

theorem cexC5_signs1 : neighborSigns ⟨(111:ℝ)/10, ((11:ℤ):ℝ), ((11:ℤ):ℝ)⟩ = ⟨-1, 1, 1⟩ := by
  unfold neighborSigns
  rw [cexC5_trunc1]
  dsimp only
  simp only [Vec3.sub_x, Vec3.sub_y, Vec3.sub_z]
  rw [if_pos (show ((11:ℤ):ℝ) - ((11:ℤ):ℝ) < 1/2 by norm_num)]

theorem cexC5_cand1 : calculateBoidNeighborCells
    (gridInverseCellWidth • (cexStateC5.pos 1 - gridMinimum)) gridSideCount
    = [5577, 5576, 5599, 6061, 5598, 6083, 6060, 6082] := by
  rw [cexC5_scale1]
  unfold calculateBoidNeighborCells
  rw [cexC5_signs1, cexC5_trunc1, gridSideCount_eq]
  decide

theorem cexC5_tables : buildTables cexStateC5 = identifyCellStartEnd [5577, 5577]
    (resetIntBuffer 2 (-1) (fun _ => 1)) (resetIntBuffer 2 (-1) (fun _ => 1)) := by
  unfold buildTables
  rw [cexC5_cells]
  rfl

theorem cexC5_visit : visitIdx cexStateC5 0 = [0, 1, 1, 1, 1, 1, 1, 1, 1] := by
  unfold visitIdx
  rw [cexC5_cand0, cexC5_tables]
  decide

theorem cexC5_dist : dist3 (cexStateC5.pos 0) (cexStateC5.pos 1) = 1 := by
  rw [show cexStateC5.pos 0 = ⟨0, 0, 0⟩ from rfl,
    show cexStateC5.pos 1 = ⟨1, 0, 0⟩ from rfl]
  unfold dist3 vlen
  simp only [Vec3.sub_x, Vec3.sub_y, Vec3.sub_z]
  rw [show ((0:ℝ) - 1) ^ 2 + ((0:ℝ) - 0) ^ 2 + ((0:ℝ) - 0) ^ 2 = 1 ^ 2 by norm_num]
  exact Real.sqrt_sq (by norm_num)

theorem cexC5_vlen79 : vlen ⟨-(79:ℝ)/100, 0, 0⟩ = 79/100 := by
  unfold vlen
  dsimp only
  rw [show (-(79:ℝ)/100) ^ 2 + (0:ℝ) ^ 2 + (0:ℝ) ^ 2 = (79/100) ^ 2 by norm_num]
  exact Real.sqrt_sq (by norm_num)

theorem cexC5_scattered : scatteredVel2 cexStateC5 env0 0 = ⟨-(79:ℝ)/100, 0, 0⟩ := by
  rw [scatteredVel2_apply cexStateC5 env0 (show (0:ℕ) < cexStateC5.N from by decide)]
  rw [scatteredCompute_char cexStateC5 env0 0]
  rw [cexC5_visit, cexC5_slots]
  have hr0 : readSlot cexStateC5.N [0, 1] env0 0 = 0 := by decide
  have hr1 : readSlot cexStateC5.N [0, 1] env0 1 = 1 := by decide
  have hrvp1 : readVecBuf cexStateC5.N cexStateC5.pos env0.oobPos 1 = cexStateC5.pos 1 := by
    unfold readVecBuf
    rw [if_pos (show (0:ℤ) ≤ 1 ∧ (1:ℤ) < (cexStateC5.N : ℤ) from by constructor <;> decide)]
    rfl
  have hrvv1 : readVecBuf cexStateC5.N cexStateC5.vel1 env0.oobVel 1 = cexStateC5.vel1 1 := by
    unfold readVecBuf
    rw [if_pos (show (0:ℤ) ≤ 1 ∧ (1:ℤ) < (cexStateC5.N : ℤ) from by constructor <;> decide)]
    rfl
  have hstep : ∀ a : RuleAcc, ruleStep (cexStateC5.pos 0)
      (readVecBuf cexStateC5.N cexStateC5.pos env0.oobPos 1)
      (readVecBuf cexStateC5.N cexStateC5.vel1 env0.oobVel 1) a
      = ⟨a.center + ⟨1, 0, 0⟩, a.numRule1 + 1, a.c - ⟨1, 0, 0⟩,
         a.perceived_velocity, a.numRule3 + 1⟩ := by
    intro a
    rw [hrvp1, hrvv1]
    unfold ruleStep
    dsimp only
    rw [if_pos (show dist3 (cexStateC5.pos 0) (cexStateC5.pos 1) < rule1Distance from by
      rw [cexC5_dist]; unfold rule1Distance; norm_num)]
    rw [if_pos (show dist3 (cexStateC5.pos 0) (cexStateC5.pos 1) < rule2Distance from by
      rw [cexC5_dist]; unfold rule2Distance; norm_num)]
    rw [if_pos (show dist3 (cexStateC5.pos 0) (cexStateC5.pos 1) < rule3Distance from by
      rw [cexC5_dist]; unfold rule3Distance; norm_num)]
    ext <;> simp [show cexStateC5.pos 0 = ⟨0, 0, 0⟩ from rfl,
      show cexStateC5.pos 1 = ⟨1, 0, 0⟩ from rfl,
      show cexStateC5.vel1 1 = 0 from rfl, Vec3.sub_def, Vec3.add_def, Vec3.zero_def]
  have hgF : ((((0:ℕ):ℤ)) ≠ (0:ℤ)) = False := by norm_num
  have hgT : ((((0:ℕ):ℤ)) ≠ (1:ℤ)) = True := by norm_num
  simp only [List.foldl_cons, List.foldl_nil, hr0, hr1, hgF, hgT, if_true, if_false, hstep]
  have hacc : (⟨RuleAcc.init.center + ⟨1, 0, 0⟩ + ⟨1, 0, 0⟩ + ⟨1, 0, 0⟩ + ⟨1, 0, 0⟩
        + ⟨1, 0, 0⟩ + ⟨1, 0, 0⟩ + ⟨1, 0, 0⟩ + ⟨1, 0, 0⟩,
      RuleAcc.init.numRule1 + 1 + 1 + 1 + 1 + 1 + 1 + 1 + 1,
      RuleAcc.init.c - ⟨1, 0, 0⟩ - ⟨1, 0, 0⟩ - ⟨1, 0, 0⟩ - ⟨1, 0, 0⟩
        - ⟨1, 0, 0⟩ - ⟨1, 0, 0⟩ - ⟨1, 0, 0⟩ - ⟨1, 0, 0⟩,
      RuleAcc.init.perceived_velocity,
      RuleAcc.init.numRule3 + 1 + 1 + 1 + 1 + 1 + 1 + 1 + 1⟩ : RuleAcc)
      = ⟨⟨8, 0, 0⟩, 8, ⟨-8, 0, 0⟩, 0, 8⟩ := by
    refine RuleAcc.ext ?_ ?_ ?_ ?_ ?_ <;>
      simp [RuleAcc.init, Vec3.add_def, Vec3.sub_def, Vec3.zero_def] <;> norm_num
  rw [hacc]
  unfold finishRules
  dsimp only
  rw [if_pos (show (8:ℕ) ≠ 0 from by norm_num), if_pos (show (8:ℕ) ≠ 0 from by norm_num)]
  have hv : rule1Scale • (((8:ℕ) : ℝ)⁻¹ • (⟨8, 0, 0⟩ : Vec3) - cexStateC5.pos 0)
      + rule2Scale • (⟨-8, 0, 0⟩ : Vec3)
      + rule3Scale • (((8:ℕ) : ℝ)⁻¹ • (0 : Vec3))
      + cexStateC5.vel1 0 = ⟨-(79:ℝ)/100, 0, 0⟩ := by
    rw [show cexStateC5.pos 0 = ⟨0, 0, 0⟩ from rfl, show cexStateC5.vel1 0 = 0 from rfl]
    unfold rule1Scale rule2Scale rule3Scale
    refine Vec3.ext ?_ ?_ ?_ <;>
      simp [Vec3.add_def, Vec3.sub_def, Vec3.smul_def, Vec3.zero_def] <;> norm_num
  rw [hv]
  exact clampSpeed_eq_of_le (by
    rw [cexC5_vlen79]
    unfold maxSpeed
    norm_num)

theorem cexC5_vlen9 : vlen ⟨-(9:ℝ)/100, 0, 0⟩ = 9/100 := by
  unfold vlen
  dsimp only
  rw [show (-(9:ℝ)/100) ^ 2 + (0:ℝ) ^ 2 + (0:ℝ) ^ 2 = (9/100) ^ 2 by norm_num]
  exact Real.sqrt_sq (by norm_num)

theorem cexC5_brute :
    bruteNewVel cexStateC5.N cexStateC5.pos cexStateC5.vel1 0 = ⟨-(9:ℝ)/100, 0, 0⟩ := by
  unfold bruteNewVel computeVelocityChange
  dsimp only
  rw [show List.range cexStateC5.N = [0, 1] from rfl]
  have hstep : ∀ a : RuleAcc, ruleStep (cexStateC5.pos 0) (cexStateC5.pos 1)
      (cexStateC5.vel1 1) a
      = ⟨a.center + ⟨1, 0, 0⟩, a.numRule1 + 1, a.c - ⟨1, 0, 0⟩,
         a.perceived_velocity, a.numRule3 + 1⟩ := by
    intro a
    unfold ruleStep
    dsimp only
    rw [if_pos (show dist3 (cexStateC5.pos 0) (cexStateC5.pos 1) < rule1Distance from by
      rw [cexC5_dist]; unfold rule1Distance; norm_num)]
    rw [if_pos (show dist3 (cexStateC5.pos 0) (cexStateC5.pos 1) < rule2Distance from by
      rw [cexC5_dist]; unfold rule2Distance; norm_num)]
    rw [if_pos (show dist3 (cexStateC5.pos 0) (cexStateC5.pos 1) < rule3Distance from by
      rw [cexC5_dist]; unfold rule3Distance; norm_num)]
    ext <;> simp [show cexStateC5.pos 0 = ⟨0, 0, 0⟩ from rfl,
      show cexStateC5.pos 1 = ⟨1, 0, 0⟩ from rfl,
      show cexStateC5.vel1 1 = 0 from rfl, Vec3.sub_def, Vec3.add_def, Vec3.zero_def]
  have hgF : ((0:ℕ) ≠ (0:ℕ)) = False := by norm_num
  have hgT : ((0:ℕ) ≠ (1:ℕ)) = True := by norm_num
  simp only [List.foldl_cons, List.foldl_nil, hgF, hgT, if_true, if_false, hstep]
  have hacc : (⟨RuleAcc.init.center + ⟨1, 0, 0⟩, RuleAcc.init.numRule1 + 1,
      RuleAcc.init.c - ⟨1, 0, 0⟩, RuleAcc.init.perceived_velocity,
      RuleAcc.init.numRule3 + 1⟩ : RuleAcc)
      = ⟨⟨1, 0, 0⟩, 1, ⟨-1, 0, 0⟩, 0, 1⟩ := by
    refine RuleAcc.ext ?_ ?_ ?_ ?_ ?_ <;>
      simp [RuleAcc.init, Vec3.add_def, Vec3.sub_def, Vec3.zero_def] <;> norm_num
  rw [hacc]
  unfold finishRules
  dsimp only
  rw [if_pos (show (1:ℕ) ≠ 0 from by norm_num), if_pos (show (1:ℕ) ≠ 0 from by norm_num)]
  have hv : rule1Scale • (((1:ℕ) : ℝ)⁻¹ • (⟨1, 0, 0⟩ : Vec3) - cexStateC5.pos 0)
      + rule2Scale • (⟨-1, 0, 0⟩ : Vec3)
      + rule3Scale • (((1:ℕ) : ℝ)⁻¹ • (0 : Vec3))
      + cexStateC5.vel1 0 = ⟨-(9:ℝ)/100, 0, 0⟩ := by
    rw [show cexStateC5.pos 0 = ⟨0, 0, 0⟩ from rfl, show cexStateC5.vel1 0 = 0 from rfl]
    unfold rule1Scale rule2Scale rule3Scale
    refine Vec3.ext ?_ ?_ ?_ <;>
      simp [Vec3.add_def, Vec3.sub_def, Vec3.smul_def, Vec3.zero_def] <;> norm_num
  rw [hv]
  exact clampSpeed_eq_of_le (by
    rw [cexC5_vlen9]
    unfold maxSpeed
    norm_num)

/-- C5 counterexample: in this two-boid state the claim's containment
hypothesis holds — every true neighbor's cell is in the particle's
candidate window — yet ScatteredGrid and BruteForce disagree on particle
`0`: the seven unpopulated candidate cells retain stale `start = end = 1`
table entries (the per-step reset only covers `numObjects = 2` cells), so
the scattered kernel revisits the neighbor seven extra times and the
separation rule is amplified eightfold (`-0.79` versus `-0.09` on x). -/
theorem scattered_reads_stale_boundary_tables :
    (∀ p, p < cexStateC5.N → ∀ q, q < cexStateC5.N → p ≠ q →
      dist3 (cexStateC5.pos p) (cexStateC5.pos q)
        < max (max rule1Distance rule2Distance) rule3Distance →
      particleCell (cexStateC5.pos q) ∈ calculateBoidNeighborCells
        (gridInverseCellWidth • (cexStateC5.pos p - gridMinimum)) gridSideCount)
    ∧ scatteredVel2 cexStateC5 env0 0 = ⟨-(79:ℝ)/100, 0, 0⟩
    ∧ bruteNewVel cexStateC5.N cexStateC5.pos cexStateC5.vel1 0 = ⟨-(9:ℝ)/100, 0, 0⟩
    ∧ scatteredVel2 cexStateC5 env0 0
        ≠ bruteNewVel cexStateC5.N cexStateC5.pos cexStateC5.vel1 0 := by
  refine ⟨?_, cexC5_scattered, cexC5_brute, ?_⟩
  · intro p hp q hq hne _
    have hp2 : p = 0 ∨ p = 1 := by
      rw [show cexStateC5.N = 2 from rfl] at hp
      omega
    have hq2 : q = 0 ∨ q = 1 := by
      rw [show cexStateC5.N = 2 from rfl] at hq
      omega
    rcases hp2 with rfl | rfl <;> rcases hq2 with rfl | rfl
    · exact absurd rfl hne
    · rw [cexC5_cell1, cexC5_cand0]
      decide
    · rw [cexC5_cell0, cexC5_cand1]
      decide
    · exact absurd rfl hne
  · rw [cexC5_scattered, cexC5_brute]
    intro h
    have hx : (-(79:ℝ)/100) = -(9:ℝ)/100 := congrArg Vec3.x h
    norm_num at hx

/-- Witness for C8 at a concrete input: a two-boid zero-velocity system
never emits the warning. -/
theorem speed_warning_never_fires_witness :
    ¬ bruteWarns 2 (fun _ => 0) (fun _ => 0) 0 :=
  speed_warning_never_fires 2 (fun _ => 0) (fun _ => 0) 0
